import Mathlib

/-!
Verification of the Parquet batch reader (`datafusion/src/datasource/parquet.rs`)
and of the hash aggregate operator (`datafusion/src/physical_plan/hash_aggregate.rs`)
against the natural-language specification of the repository.

The Rust sources are shallowly embedded: pure functions become Lean functions,
stateful methods thread an explicit record state, fallible code returns
`Except`.  `i64` arithmetic (which wraps in release builds) is embedded as
`Int` arithmetic followed by an explicit reduction modulo `2 ^ 64`.
-/

namespace Spec2Proof

/-- Arrow time units (`arrow::datatypes::TimeUnit`). -/
inductive TimeUnit
  | Second
  | Millisecond
  | Microsecond
  | Nanosecond
deriving DecidableEq, Repr

/-- Arrow date units (`arrow::datatypes::DateUnit`). -/
inductive DateUnit
  | Day
  | Millisecond
deriving DecidableEq, Repr

/-- Arrow logical data types, restricted to the constructors the two source
files inspect.  `Struct`'s field list is never inspected by either source file
(only the constructor head is matched), so it carries no payload here. -/
inductive DataType
  | Boolean
  | Int8
  | Int16
  | Int32
  | Int64
  | UInt8
  | UInt16
  | UInt32
  | UInt64
  | Float32
  | Float64
  | Date32 (unit : DateUnit)
  | Time32 (unit : TimeUnit)
  | Time64 (unit : TimeUnit)
  | Timestamp (unit : TimeUnit)
  | Utf8
  | List (item : DataType)
  | Struct
deriving DecidableEq, Repr

instance : Inhabited DataType := ⟨DataType.Boolean⟩

/-- Arrow schema field: `Field::new(name, data_type, nullable)`. -/
structure Field where
  name : String
  data_type : DataType
  nullable : Bool
deriving DecidableEq, Repr

instance : Inhabited Field := ⟨⟨"", default, false⟩⟩

/-- Arrow schema: an ordered sequence of fields (`Schema::new(fields)`);
`schema.field(i)` is `fields[i]`. -/
structure Schema where
  fields : List Field
deriving DecidableEq, Repr

/-- Error kinds of `datafusion::error::ExecutionError` used by `parquet.rs`. -/
inductive ExecutionError
  | General (msg : String)
  | InvalidColumn (msg : String)
  | NotImplemented (msg : String)
  | ParquetError (msg : String)
  | ArrowError (msg : String)
deriving DecidableEq, Repr

/-! ## `convert_int96_timestamp` (parquet.rs lines 530-540) -/

/-- Two's-complement wrap-around at 64 bits: the value an `i64` arithmetic
result takes in a Rust release build. -/
def wrap64 (n : Int) : Int := (n + 2 ^ 63) % 2 ^ 64 - 2 ^ 63

/-- Constant `JULIAN_DAY_OF_EPOCH` from `convert_int96_timestamp`. -/
def JULIAN_DAY_OF_EPOCH : Int := 2440588

/-- Constant `SECONDS_PER_DAY` from `convert_int96_timestamp`. -/
def SECONDS_PER_DAY : Int := 86400

/-- Constant `MILLIS_PER_SECOND` from `convert_int96_timestamp`. -/
def MILLIS_PER_SECOND : Int := 1000

/-- Embedding of `convert_int96_timestamp(v: &[u32]) -> i64`: `v` is the INT96
split into three `u32` words `(nanos_low, nanos_high, julian_day)`.  Every
`i64` operation of the source (`<< 32`, `+`, `-`, `*`) is followed by the
64-bit wrap it has in a release build. -/
def convert_int96_timestamp (v : List Nat) : Int :=
  let day : Int := (v.getD 2 0 : Nat)
  let shifted : Int := wrap64 ((v.getD 1 0 : Nat) * 2 ^ 32)
  let nanoseconds : Int := wrap64 (shifted + (v.getD 0 0 : Nat))
  let seconds : Int := wrap64 (wrap64 (day - JULIAN_DAY_OF_EPOCH) * SECONDS_PER_DAY)
  wrap64 (wrap64 (wrap64 (seconds * MILLIS_PER_SECOND) * 1000000) + nanoseconds)

/-- The specification's direct formula for the INT96 conversion:
`(julian_day − 2440588) × 86400 × 10^9 + ((nanos_high << 32) | nanos_low)`,
computed as one mathematical expression and then represented as an `i64`. -/
def int96_spec_nanoseconds (nanos_low nanos_high julian_day : Nat) : Int :=
  wrap64 (((julian_day : Int) - 2440588) * 86400 * 10 ^ 9
    + (((nanos_high <<< 32) ||| nanos_low : Nat) : Int))

theorem wrap64_emod_self (a : Int) : wrap64 a % 2 ^ 64 = a % 2 ^ 64 := by
  unfold wrap64
  omega

theorem wrap64_congr (a b : Int) (h : a % 2 ^ 64 = b % 2 ^ 64) :
    wrap64 a = wrap64 b := by
  unfold wrap64
  omega

theorem wrap64_add_left (a b : Int) : wrap64 (wrap64 a + b) = wrap64 (a + b) := by
  apply wrap64_congr
  conv_lhs => rw [Int.add_emod, wrap64_emod_self, ← Int.add_emod]

theorem wrap64_add_right (a b : Int) : wrap64 (a + wrap64 b) = wrap64 (a + b) := by
  apply wrap64_congr
  conv_lhs => rw [Int.add_emod, wrap64_emod_self, ← Int.add_emod]

theorem wrap64_mul_left (a b : Int) : wrap64 (wrap64 a * b) = wrap64 (a * b) := by
  apply wrap64_congr
  conv_lhs => rw [Int.mul_emod, wrap64_emod_self, ← Int.mul_emod]

theorem testBit_eq_false_of_lt_two_pow {b : Nat} {j : Nat} (h : b < 2 ^ 32)
    (hj : 32 ≤ j) : b.testBit j = false := by
  apply Nat.testBit_lt_two_pow
  exact lt_of_lt_of_le h (Nat.pow_le_pow_right (by norm_num) hj)

/-- For a 32-bit low word, `(high <<< 32) ||| low` is the plain sum
`high * 2 ^ 32 + low`. -/
theorem shiftLeft_lor_eq_add (a b : Nat) (hb : b < 2 ^ 32) :
    ((a <<< 32) ||| b) = a * 2 ^ 32 + b := by
  apply Nat.eq_of_testBit_eq
  intro j
  rw [Nat.testBit_lor, Nat.testBit_shiftLeft,
    show a * 2 ^ 32 + b = 2 ^ 32 * a + b by ring,
    Nat.testBit_mul_pow_two_add a hb j]
  by_cases hj : j < 32
  · simp [hj, Nat.not_le.mpr hj]
  · simp [hj, Nat.le_of_not_lt hj,
      testBit_eq_false_of_lt_two_pow hb (Nat.le_of_not_lt hj)]

/-- C1: for every INT96 interpreted as `(nanos_low, nanos_high, julian_day)`
`u32` words, `convert_int96_timestamp` returns exactly the specification's
direct formula `(julian_day − 2440588) × 86400 × 10^9 + ((nanos_high << 32) |
nanos_low)`: the intermediate multiplication by `MILLIS_PER_SECOND = 1000`
followed by `1_000_000` equals the direct `× 10^9`. -/
theorem convert_int96_timestamp_eq_spec (v0 v1 v2 : Nat) (h0 : v0 < 2 ^ 32) :
    convert_int96_timestamp [v0, v1, v2] = int96_spec_nanoseconds v0 v1 v2 := by
  unfold convert_int96_timestamp int96_spec_nanoseconds
    JULIAN_DAY_OF_EPOCH SECONDS_PER_DAY MILLIS_PER_SECOND
  simp only [List.getD_cons_succ, List.getD_cons_zero]
  rw [shiftLeft_lor_eq_add v1 v0 h0]
  simp only [wrap64_mul_left, wrap64_add_left, wrap64_add_right]
  congr 1
  push_cast
  ring

/-- Witness for C1 at a concrete INT96 value. -/
theorem convert_int96_timestamp_eq_spec_witness :
    (0 : Nat) < 2 ^ 32 ∧
      convert_int96_timestamp [0, 0, 2454923] = int96_spec_nanoseconds 0 0 2454923 :=
  ⟨by norm_num, convert_int96_timestamp_eq_spec 0 0 2454923 (by norm_num)⟩

/-! ## `schema_projection` (parquet.rs lines 514-528) -/

/-- The field-collecting loop of `schema_projection(schema, projection)`: walk
the projection in order, clone the field at each in-range index, and fail with
`InvalidColumn` at the first out-of-range index. -/
def schema_projection_loop (schema : Schema) : List Nat → Except ExecutionError (List Field)
  | [] => Except.ok []
  | i :: rest =>
    if h : i < schema.fields.length then
      match schema_projection_loop schema rest with
      | Except.ok fs => Except.ok (schema.fields.get ⟨i, h⟩ :: fs)
      | Except.error e => Except.error e
    else
      Except.error (ExecutionError.InvalidColumn
        s!"Invalid column index {i} in projection")

/-- Embedding of `schema_projection(schema, projection)` (parquet.rs:515). -/
def schema_projection (schema : Schema) (projection : List Nat) :
    Except ExecutionError Schema :=
  (schema_projection_loop schema projection).map Schema.mk

theorem schema_projection_loop_ok (s : Schema) (p : List Nat)
    (hp : ∀ i ∈ p, i < s.fields.length) :
    schema_projection_loop s p =
      Except.ok (p.map (fun i => s.fields.getD i default)) := by
  induction p with
  | nil => rfl
  | cons a p ih =>
    have ha : a < s.fields.length := hp a (List.mem_cons_self a p)
    have ih' := ih (fun i hi => hp i (List.mem_cons_of_mem a hi))
    simp only [schema_projection_loop, dif_pos ha, ih', List.map_cons]
    simp [List.getD, List.getElem?_eq_getElem ha]

theorem schema_projection_loop_err (s : Schema) (p : List Nat)
    (hp : ∃ i ∈ p, ¬ i < s.fields.length) :
    ∃ msg, schema_projection_loop s p = Except.error (ExecutionError.InvalidColumn msg) := by
  induction p with
  | nil => simp at hp
  | cons a p ih =>
    by_cases ha : a < s.fields.length
    · have hp' : ∃ i ∈ p, ¬ i < s.fields.length := by
        rcases hp with ⟨i, hi, hlt⟩
        rcases List.mem_cons.mp hi with rfl | hi
        · exact absurd ha hlt
        · exact ⟨i, hi, hlt⟩
      rcases ih hp' with ⟨msg, hmsg⟩
      refine ⟨msg, ?_⟩
      simp [schema_projection_loop, dif_pos ha, hmsg]
    · exact ⟨s!"Invalid column index {a} in projection",
        by simp [schema_projection_loop, dif_neg ha]⟩

/-- C7: `schema_projection s p` returns the schema whose fields are exactly the
fields of `s` at the indices of `p`, cloned in the order given by `p`, when
every index of `p` is in range; otherwise it fails with an `InvalidColumn`
error and no schema is produced. -/
theorem schema_projection_spec (s : Schema) (p : List Nat) :
    ((∀ i ∈ p, i < s.fields.length) →
      schema_projection s p =
        Except.ok (Schema.mk (p.map (fun i => s.fields.getD i default)))) ∧
    ((∃ i ∈ p, ¬ i < s.fields.length) →
      ∃ msg, schema_projection s p = Except.error (ExecutionError.InvalidColumn msg)) := by
  constructor
  · intro hp
    simp [schema_projection, schema_projection_loop_ok s p hp, Except.map]
  · intro hp
    rcases schema_projection_loop_err s p hp with ⟨msg, hmsg⟩
    exact ⟨msg, by simp [schema_projection, hmsg, Except.map]⟩

/-- Witness for C7 on a concrete two-field schema and the projection `[1, 0]`. -/
theorem schema_projection_spec_witness :
    schema_projection
        (Schema.mk [⟨"id", DataType.Int32, false⟩, ⟨"name", DataType.Utf8, true⟩])
        [1, 0] =
      Except.ok (Schema.mk
        [⟨"name", DataType.Utf8, true⟩, ⟨"id", DataType.Int32, false⟩]) :=
  (schema_projection_spec
    (Schema.mk [⟨"id", DataType.Int32, false⟩, ⟨"name", DataType.Utf8, true⟩])
    [1, 0]).1 (by decide)

/-! ## Column reading (`ArrowReader::read`, `read_binary_column!`) -/

/-- The row-by-row append loop of the nullable slow path of
`ArrowReader::read` (parquet.rs lines 266-274): for each definition level,
append the next buffer value when the level is non-zero (`def_levels[i] != 0`)
and a null otherwise, advancing the value cursor in lock-step.  Definition
levels are `i16` in the source but are non-negative by the Parquet contract,
so they are embedded as `Nat`. -/
def appendLevels {α : Type} [Inhabited α] : List Nat → List α → List (Option α)
  | [], _ => []
  | l :: ls, vs =>
    if l ≠ 0 then some (vs.headD default) :: appendLevels ls vs.tail
    else none :: appendLevels ls vs

/-- Nullable path of `ArrowReader::read` (parquet.rs lines 251-276): when
`values_read == levels_read` the whole value slice
`converted_buffer[0..values_read]` is appended; otherwise the row-by-row loop
interleaves values and nulls by definition level.  `def_levels` is the level
buffer truncated to `levels_read`. -/
def arrowReaderReadNullable {α : Type} [Inhabited α]
    (def_levels : List Nat) (buffer : List α) (values_read : Nat) :
    List (Option α) :=
  if values_read = def_levels.length then
    (buffer.take values_read).map some
  else
    appendLevels def_levels buffer

/-- Non-nullable path of `ArrowReader::read` (parquet.rs lines 277-286): the
first `values_read` buffer values, no nulls. -/
def arrowReaderReadNonNull {α : Type} (buffer : List α) (values_read : Nat) :
    List (Option α) :=
  (buffer.take values_read).map some

/-- The nullable loop of the `read_binary_column!` macro (parquet.rs lines
183-203) and of the INT96 arm of `load_batch` (lines 462-472), which test
`def_levels[i] > 0` instead of `!= 0`. -/
def readBinaryLevels {α : Type} [Inhabited α] : List Nat → List α → List (Option α)
  | [], _ => []
  | l :: ls, vs =>
    if 0 < l then some (vs.headD default) :: readBinaryLevels ls vs.tail
    else none :: readBinaryLevels ls vs

theorem appendLevels_length {α : Type} [Inhabited α] (ls : List Nat) (vs : List α) :
    (appendLevels ls vs).length = ls.length := by
  induction ls generalizing vs with
  | nil => rfl
  | cons l ls ih => by_cases h : l = 0 <;> simp [appendLevels, h, ih]

theorem appendLevels_null_iff {α : Type} [Inhabited α] (ls : List Nat) (vs : List α)
    (i : Nat) (hi : i < ls.length) :
    ((appendLevels ls vs).getD i none = none ↔ ls.getD i 1 = 0) := by
  induction ls generalizing vs i with
  | nil => simp at hi
  | cons l ls ih =>
    cases i with
    | zero => by_cases h : l = 0 <;> simp [appendLevels, h]
    | succ i =>
      have hi' : i < ls.length := Nat.lt_of_succ_lt_succ hi
      by_cases h : l = 0
      · rw [show appendLevels (l :: ls) vs = none :: appendLevels ls vs by
            simp [appendLevels, h],
          List.getD_cons_succ, List.getD_cons_succ]
        exact ih vs i hi'
      · rw [show appendLevels (l :: ls) vs
              = some (vs.headD default) :: appendLevels ls vs.tail by
            simp [appendLevels, h],
          List.getD_cons_succ, List.getD_cons_succ]
        exact ih vs.tail i hi'

theorem appendLevels_filterMap {α : Type} [Inhabited α] (ls : List Nat) (vs : List α)
    (h : ls.countP (fun l => l != 0) ≤ vs.length) :
    (appendLevels ls vs).filterMap id = vs.take (ls.countP (fun l => l != 0)) := by
  induction ls generalizing vs with
  | nil => simp [appendLevels]
  | cons l ls ih =>
    by_cases hl : l = 0
    · subst hl
      have h' : ls.countP (fun l => l != 0) ≤ vs.length := by
        rw [List.countP_cons] at h
        simpa using h
      simp [appendLevels, List.countP_cons, ih vs h']
    · have hcnt : (l :: ls).countP (fun l => l != 0)
          = ls.countP (fun l => l != 0) + 1 := by
        rw [List.countP_cons]
        simp [hl]
      rw [hcnt] at h ⊢
      cases vs with
      | nil =>
        exfalso
        rw [List.length_nil] at h
        omega
      | cons v vt =>
        have h' : ls.countP (fun l => l != 0) ≤ vt.length := by
          simpa using Nat.le_of_succ_le_succ h
        simp [appendLevels, hl, ih vt h', List.take_succ_cons]

theorem appendLevels_of_all_ne {α : Type} [Inhabited α] (ls : List Nat) (vs : List α)
    (hall : ∀ l ∈ ls, l ≠ 0) (hlen : ls.length ≤ vs.length) :
    appendLevels ls vs = (vs.take ls.length).map some := by
  induction ls generalizing vs with
  | nil => simp [appendLevels]
  | cons l ls ih =>
    cases vs with
    | nil => simp at hlen
    | cons v vt =>
      have hl := hall l (List.mem_cons_self l ls)
      have ih' := ih vt (fun x hx => hall x (List.mem_cons_of_mem l hx))
        (Nat.le_of_succ_le_succ hlen)
      simp [appendLevels, hl, ih', List.take_succ_cons]

theorem readBinaryLevels_eq_appendLevels {α : Type} [Inhabited α]
    (ls : List Nat) (vs : List α) :
    readBinaryLevels ls vs = appendLevels ls vs := by
  induction ls generalizing vs with
  | nil => rfl
  | cons l ls ih =>
    by_cases hl : l = 0 <;>
      simp [readBinaryLevels, appendLevels, hl, ih, Nat.pos_iff_ne_zero]

/-- C6: for a nullable column read with `values_read` values and definition
levels `def_levels` (where `values_read` counts the non-zero levels, as
`read_batch` guarantees), the produced array has one slot per level, slot `i`
is null iff `def_levels[i]` is 0, the non-null slots carry the first
`values_read` buffer values in order, when `values_read == levels_read` the
optimized slice append equals the row-by-row loop, and the `> 0` test of
`read_binary_column!` builds the same rows as the `!= 0` test. -/
theorem nullable_column_read_spec {α : Type} [Inhabited α]
    (def_levels : List Nat) (buffer : List α) (values_read : Nat)
    (hvr : values_read = def_levels.countP (fun l => l != 0))
    (hbuf : values_read ≤ buffer.length) :
    (arrowReaderReadNullable def_levels buffer values_read).length = def_levels.length
    ∧ (∀ i, i < def_levels.length →
        ((arrowReaderReadNullable def_levels buffer values_read).getD i none = none
          ↔ def_levels.getD i 1 = 0))
    ∧ (arrowReaderReadNullable def_levels buffer values_read).filterMap id
        = buffer.take values_read
    ∧ (values_read = def_levels.length →
        arrowReaderReadNullable def_levels buffer values_read
          = appendLevels def_levels buffer)
    ∧ readBinaryLevels def_levels buffer = appendLevels def_levels buffer := by
  by_cases hfast : values_read = def_levels.length
  · have hall : ∀ l ∈ def_levels, l ≠ 0 := by
      intro l hl
      have := List.countP_eq_length.mp (by omega : List.countP
        (fun l => l != 0) def_levels = def_levels.length) l hl
      simpa using this
    have hlen : def_levels.length ≤ buffer.length := hfast ▸ hbuf
    have heq : arrowReaderReadNullable def_levels buffer values_read
        = (buffer.take values_read).map some := by
      simp [arrowReaderReadNullable, hfast]
    have htake : (buffer.take values_read).length = values_read :=
      List.length_take_of_le hbuf
    refine ⟨?_, ?_, ?_, ?_, readBinaryLevels_eq_appendLevels _ _⟩
    · rw [heq, List.length_map, htake]
      exact hfast
    · intro i hi
      rw [heq]
      have hilen : i < ((buffer.take values_read).map some).length := by
        rw [List.length_map, htake, hfast]
        exact hi
      have hLne : ((buffer.take values_read).map some).getD i none ≠ none := by
        rw [List.getD_eq_getElem?_getD, List.getElem?_eq_getElem hilen,
          Option.getD_some]
        simp
      have hne : ¬ def_levels.getD i 1 = 0 := by
        rw [List.getD_eq_getElem?_getD, List.getElem?_eq_getElem hi,
          Option.getD_some]
        exact hall _ (List.getElem_mem hi)
      exact iff_of_false hLne hne
    · rw [heq, List.filterMap_map]
      simp
    · intro _
      rw [heq, appendLevels_of_all_ne def_levels buffer hall hlen, hfast]
  · have heq : arrowReaderReadNullable def_levels buffer values_read
        = appendLevels def_levels buffer := by
      simp [arrowReaderReadNullable, hfast]
    refine ⟨?_, ?_, ?_, fun h => absurd h hfast,
      readBinaryLevels_eq_appendLevels _ _⟩
    · rw [heq]
      exact appendLevels_length _ _
    · intro i hi
      rw [heq]
      exact appendLevels_null_iff _ _ i hi
    · rw [heq, appendLevels_filterMap def_levels buffer (hvr ▸ hbuf), ← hvr]

/-- Witness for C6 on concrete levels `[1, 0, 1]` and buffer `[10, 20, 99]`. -/
theorem nullable_column_read_spec_witness :
    ((2 : Nat) = [1, 0, 1].countP (fun l => l != 0) ∧ 2 ≤ [10, 20, 99].length)
    ∧ (arrowReaderReadNullable [1, 0, 1] [10, 20, 99] 2).length = 3
    ∧ (arrowReaderReadNullable [1, 0, 1] [10, 20, 99] 2).filterMap id = [10, 20] := by
  refine ⟨⟨by decide, by decide⟩, ?_, ?_⟩
  · have := (nullable_column_read_spec [1, 0, 1] [(10 : Nat), 20, 99] 2
      (by decide) (by decide)).1
    simpa using this
  · have := (nullable_column_read_spec [1, 0, 1] [(10 : Nat), 20, 99] 2
      (by decide) (by decide)).2.2.1
    simpa using this

/-! ## The `ParquetFile` reader state machine -/

/-- Parquet physical types, one per variant of `parquet::column::reader::ColumnReader`. -/
inductive PhysicalType
  | BooleanType
  | Int32Type
  | Int64Type
  | Int96Type
  | FloatType
  | DoubleType
  | ByteArrayType
  | FixedLenByteArrayType
deriving DecidableEq, Repr

/-- A decoded physical cell.  Floating point values are carried as raw bit
patterns (the reader never computes with them), byte arrays as byte lists,
INT96 as its three `u32` words `(nanos_low, nanos_high, julian_day)`. -/
inductive PCell
  | boolv (b : Bool)
  | i32 (v : Int)
  | i64 (v : Int)
  | i96 (v0 v1 v2 : Nat)
  | f32bits (v : Nat)
  | f64bits (v : Nat)
  | bytes (data : List Nat)
deriving DecidableEq, Repr

instance : Inhabited PCell := ⟨PCell.i32 0⟩

/-- One column chunk of a row group: its physical type and its logical rows
(`none` is a slot whose definition level is 0).  Repetition levels are unused
for flat columns. -/
structure ColumnChunk where
  phys : PhysicalType
  chunkRows : List (Option PCell)
deriving DecidableEq, Repr

/-- A Parquet row group (`RowGroupReader`): its column chunks. -/
structure RowGroup where
  columns : List ColumnChunk
deriving DecidableEq, Repr

/-- Abstraction of `SerializedFileReader` together with the Arrow schema that
`parquet_to_arrow_schema` derives from the file's Parquet schema descriptor. -/
structure PFile where
  schema : Schema
  rowGroups : List RowGroup
deriving DecidableEq, Repr

/-- A column reader (`get_column_reader`): the physical type and the rows not
yet consumed by `read_batch`. -/
structure ColumnReaderState where
  phys : PhysicalType
  remaining : List (Option PCell)
deriving DecidableEq, Repr

/-- The `read_batch(batch_size, Some(&mut def_levels), None, &mut read_buffer)`
primitive: consume up to `batch_size` rows, returning the definition levels of
the consumed rows, the compacted values, and the advanced reader. -/
def readBatchLevels (batch_size : Nat) (st : ColumnReaderState) :
    List Nat × List PCell × ColumnReaderState :=
  let consumed := st.remaining.take batch_size
  (consumed.map (fun r => if r.isSome then 1 else 0),
    consumed.filterMap id,
    { st with remaining := st.remaining.drop batch_size })

/-- A built Arrow array: the builder's Arrow data type and its slots
(`none` = null).  Primitive conversions in the source are bitcasts, so cells
are carried unchanged. -/
structure ColumnArray where
  atype : DataType
  rows : List (Option PCell)
deriving DecidableEq, Repr

instance : Inhabited ColumnArray := ⟨⟨default, []⟩⟩

/-- `ArrowReader::read` for a primitive builder of Arrow type `atype`:
nullable and non-nullable paths as in parquet.rs lines 243-287. -/
def primArray (atype : DataType) (nullable : Bool) (def_levels : List Nat)
    (values : List PCell) : ColumnArray :=
  if nullable then
    ⟨atype, arrowReaderReadNullable def_levels values values.length⟩
  else
    ⟨atype, arrowReaderReadNonNull values values.length⟩

/-- The `read_binary_column!` macro body: a `StringBuilder` column (Utf8). -/
def binaryArray (nullable : Bool) (def_levels : List Nat)
    (values : List PCell) : ColumnArray :=
  if nullable then
    ⟨DataType.Utf8, readBinaryLevels def_levels values⟩
  else
    ⟨DataType.Utf8, values.map some⟩

/-- One projected column of `ParquetFile::load_batch` (parquet.rs lines
374-495): dispatch on the physical column reader variant and on the target
Arrow type `dt`, then build the array.  The `Timestamp(Nanosecond)`-from-INT64
arm selects the `TimestampMicrosecondType` builder, exactly as the source does
at line 436. -/
def readColumn (dt : DataType) (nullable : Bool) (batch_size : Nat)
    (st : ColumnReaderState) : ColumnArray × ColumnReaderState :=
  let out := readBatchLevels batch_size st
  let def_levels := out.1
  let values := out.2.1
  let st' := out.2.2
  match st.phys with
  | PhysicalType.BooleanType =>
    (primArray DataType.Boolean nullable def_levels values, st')
  | PhysicalType.Int32Type =>
    let atype := match dt with
      | DataType.Date32 DateUnit.Day => DataType.Date32 DateUnit.Day
      | DataType.Time32 TimeUnit.Millisecond => DataType.Time32 TimeUnit.Millisecond
      | _ => DataType.Int32
    (primArray atype nullable def_levels values, st')
  | PhysicalType.Int64Type =>
    let atype := match dt with
      | DataType.Time64 TimeUnit.Microsecond => DataType.Time64 TimeUnit.Microsecond
      | DataType.Time64 TimeUnit.Nanosecond => DataType.Time64 TimeUnit.Nanosecond
      | DataType.Timestamp TimeUnit.Millisecond => DataType.Timestamp TimeUnit.Millisecond
      | DataType.Timestamp TimeUnit.Microsecond => DataType.Timestamp TimeUnit.Microsecond
      | DataType.Timestamp TimeUnit.Nanosecond => DataType.Timestamp TimeUnit.Microsecond
      | _ => DataType.Int64
    (primArray atype nullable def_levels values, st')
  | PhysicalType.Int96Type =>
    let converted := values.map (fun c =>
      match c with
      | PCell.i96 v0 v1 v2 => PCell.i64 (convert_int96_timestamp [v0, v1, v2])
      | c => c)
    (⟨DataType.Timestamp TimeUnit.Nanosecond, readBinaryLevels def_levels converted⟩, st')
  | PhysicalType.FloatType =>
    (primArray DataType.Float32 nullable def_levels values, st')
  | PhysicalType.DoubleType =>
    (primArray DataType.Float64 nullable def_levels values, st')
  | PhysicalType.FixedLenByteArrayType =>
    (binaryArray nullable def_levels values, st')
  | PhysicalType.ByteArrayType =>
    (binaryArray nullable def_levels values, st')

/-- The mutable reader state of `ParquetFile` (parquet.rs lines 90-101). -/
structure ParquetFile where
  reader : PFile
  projection : List Nat
  projection_schema : Schema
  batch_size : Nat
  row_group_index : Nat
  current_row_group : Option RowGroup
  column_readers : List ColumnReaderState
deriving DecidableEq, Repr

/-- Projection normalization of `ParquetFile::open` (parquet.rs lines
322-331): an absent projection becomes `[0 .. number of schema fields)`. -/
def resolvedProjection (file : PFile) (projection : Option (List Nat)) : List Nat :=
  match projection with
  | some p => p
  | none => List.range file.schema.fields.length

/-- Embedding of `ParquetFile::open` (parquet.rs lines 292-344).  The `PFile`
argument stands for the opened `SerializedFileReader` and the schema
`parquet_to_arrow_schema` derives from it.  The nested-type check of the
source (lines 304-320) is commented out there, so `open` inspects no data
types. -/
def ParquetFile.open (file : PFile) (projection : Option (List Nat))
    (batch_size : Nat) : Except ExecutionError ParquetFile :=
  match schema_projection file.schema (resolvedProjection file projection) with
  | Except.ok projected_schema =>
    Except.ok {
      reader := file
      row_group_index := 0
      projection_schema := projected_schema
      projection := resolvedProjection file projection
      batch_size := batch_size
      current_row_group := none
      column_readers := [] }
  | Except.error e => Except.error e

/-- The `get_column_reader` loop of `load_next_row_group` (parquet.rs lines
353-356): one column reader per projection index, failing if an index is out
of range for the row group. -/
def collectColumnReaders (rg : RowGroup) :
    List Nat → Except ExecutionError (List ColumnReaderState)
  | [] => Except.ok []
  | i :: rest =>
    match rg.columns[i]? with
    | some c =>
      match collectColumnReaders rg rest with
      | Except.ok rs => Except.ok (⟨c.phys, c.chunkRows⟩ :: rs)
      | Except.error e => Except.error e
    | none => Except.error (ExecutionError.ParquetError "column index out of range")

/-- Embedding of `ParquetFile::load_next_row_group` (parquet.rs lines 346-367). -/
def ParquetFile.load_next_row_group (self : ParquetFile) :
    Except ExecutionError ParquetFile :=
  if self.row_group_index < self.reader.rowGroups.length then
    let rg := self.reader.rowGroups.getD self.row_group_index ⟨[]⟩
    match collectColumnReaders rg self.projection with
    | Except.ok readers =>
      Except.ok { self with
        column_readers := readers
        current_row_group := some rg
        row_group_index := self.row_group_index + 1 }
    | Except.error e => Except.error e
  else
    Except.error (ExecutionError.General "Attempt to read past final row group")

/-- An Arrow record batch: a schema and its columns. -/
structure RecordBatch where
  schema : Schema
  columns : List ColumnArray
deriving DecidableEq, Repr

/-- Modelled from the spec: `RecordBatch::try_new` lives in the Arrow
columnar library, which is not under `src/`; §3 gives its invariant
`columns.len() == schema.fields.len()` with all columns sharing one length,
so construction validates exactly that. -/
def RecordBatch.try_new (schema : Schema) (columns : List ColumnArray) :
    Except ExecutionError RecordBatch :=
  if columns.length = schema.fields.length
      ∧ ∀ c ∈ columns, c.rows.length = (columns.headD default).rows.length then
    Except.ok ⟨schema, columns⟩
  else
    Except.error (ExecutionError.ArrowError "invalid record batch")

/-- The per-column loop of `load_batch` (parquet.rs lines 374-497): read one
array per column reader, taking Arrow type and nullability from the projected
schema field at the same position. -/
def loadBatchLoop (batch_size : Nat) :
    List Field → List ColumnReaderState → List ColumnArray × List ColumnReaderState
  | _, [] => ([], [])
  | fields, r :: rs =>
    let f := fields.headD default
    let (arr, r') := readColumn f.data_type f.nullable batch_size r
    let (arrs, rs') := loadBatchLoop batch_size fields.tail rs
    (arr :: arrs, r' :: rs')

/-- Embedding of `ParquetFile::load_batch` (parquet.rs lines 369-511): with a
current row group, build one array per projected column; a batch with no
columns or an empty first column is reported as `Ok(None)`. -/
def ParquetFile.load_batch (self : ParquetFile) :
    Except ExecutionError (Option RecordBatch) × ParquetFile :=
  match self.current_row_group with
  | some _ =>
    let out := loadBatchLoop self.batch_size self.projection_schema.fields
      self.column_readers
    let self' := { self with column_readers := out.2 }
    if out.1.length = 0 ∨ (out.1.headD default).rows.length = 0 then
      (Except.ok none, self')
    else
      match RecordBatch.try_new self.projection_schema out.1 with
      | Except.ok b => (Except.ok (some b), self')
      | Except.error e => (Except.error e, self')
  | none => (Except.ok none, self)

/-- Embedding of `ParquetFile::next` (parquet.rs lines 547-566). -/
def ParquetFile.next (self : ParquetFile) :
    Except ExecutionError (Option RecordBatch) × ParquetFile :=
  if self.current_row_group.isNone then
    match self.load_next_row_group with
    | Except.error e => (Except.error e, self)
    | Except.ok self' => self'.load_batch
  else
    match self.load_batch with
    | (Except.ok (some b), self') => (Except.ok (some b), self')
    | (Except.ok none, self') =>
      if self'.row_group_index < self'.reader.rowGroups.length then
        match self'.load_next_row_group with
        | Except.error e => (Except.error e, self')
        | Except.ok self'' => self''.load_batch
      else
        (Except.ok none, self')
    | (Except.error e, self') => (Except.error e, self')

/-! ## Claims C2-C5 on the reader state machine -/

theorem schema_projection_loop_error_shape (s : Schema) (p : List Nat)
    (e : ExecutionError) (h : schema_projection_loop s p = Except.error e) :
    ∃ msg, e = ExecutionError.InvalidColumn msg := by
  induction p with
  | nil => simp [schema_projection_loop] at h
  | cons a rest ih =>
    by_cases ha : a < s.fields.length
    · simp only [schema_projection_loop, dif_pos ha] at h
      cases hrec : schema_projection_loop s rest with
      | ok fs =>
        rw [hrec] at h
        simp at h
      | error e' =>
        rw [hrec] at h
        injection h with h2
        subst h2
        exact ih hrec
    · simp only [schema_projection_loop, dif_neg ha] at h
      injection h with h2
      exact ⟨_, h2.symm⟩

theorem schema_projection_error_shape (s : Schema) (p : List Nat)
    (e : ExecutionError) (h : schema_projection s p = Except.error e) :
    ∃ msg, e = ExecutionError.InvalidColumn msg := by
  unfold schema_projection at h
  cases hl : schema_projection_loop s p with
  | ok fs =>
    rw [hl] at h
    simp [Except.map] at h
  | error e' =>
    rw [hl] at h
    simp only [Except.map] at h
    injection h with h2
    exact h2 ▸ schema_projection_loop_error_shape s p e' hl

/-- C2 (amended): for every `ParquetFile` opened on a file with zero row
groups, the first call to `next` does not signal end of stream: it returns the
`General` error "Attempt to read past final row group" that
`load_next_row_group` raises. -/
theorem parquet_next_zero_row_groups (f : PFile) (proj : Option (List Nat))
    (bs : Nat) (pf : ParquetFile)
    (hrg : f.rowGroups = [])
    (hopen : ParquetFile.open f proj bs = Except.ok pf) :
    pf.next.1 = Except.error
      (ExecutionError.General "Attempt to read past final row group") := by
  unfold ParquetFile.open at hopen
  split at hopen
  · injection hopen with h
    subst h
    simp [ParquetFile.next, ParquetFile.load_next_row_group, hrg]
  · simp at hopen

/-- The file read by the C2 scenario: a one-field schema, zero row groups. -/
def emptyPFile : PFile := ⟨Schema.mk [⟨"id", DataType.Int32, false⟩], []⟩

/-- C2 counterexample: on a file with zero row groups, the first `next` does
not return `Ok(None)`: it returns a `General` error. -/
theorem parquet_next_zero_row_groups_counterexample :
    (ParquetFile.open emptyPFile none 1024).map (fun pf => pf.next.1) =
      Except.ok (Except.error
        (ExecutionError.General "Attempt to read past final row group")) := rfl

/-- The reader state `ParquetFile::open` builds on `emptyPFile`. -/
def emptyOpenedFile : ParquetFile :=
  { reader := emptyPFile
    projection := [0]
    projection_schema := Schema.mk [⟨"id", DataType.Int32, false⟩]
    batch_size := 1024
    row_group_index := 0
    current_row_group := none
    column_readers := [] }

/-- Witness for C2 (amended) at the concrete empty file. -/
theorem parquet_next_zero_row_groups_witness :
    emptyOpenedFile.next.1 = Except.error
      (ExecutionError.General "Attempt to read past final row group") :=
  parquet_next_zero_row_groups emptyPFile none 1024 emptyOpenedFile rfl rfl

/-- C3 (amended): the nested-type check of `ParquetFile::open` is commented
out in the source, so `open` inspects no data types: for every file (nested
types included) it returns a reader whenever the projection indices are in
range, and it never produces a `NotImplemented` error. -/
theorem parquet_open_no_nested_check (f : PFile) (p : List Nat) (bs : Nat) :
    ((∀ i ∈ p, i < f.schema.fields.length) →
      (ParquetFile.open f (some p) bs).isOk = true)
    ∧ ∀ msg, ParquetFile.open f (some p) bs
        ≠ Except.error (ExecutionError.NotImplemented msg) := by
  constructor
  · intro hp
    unfold ParquetFile.open
    rw [show resolvedProjection f (some p) = p from rfl,
      (schema_projection_spec f.schema p).1 hp]
    rfl
  · intro msg hcontra
    unfold ParquetFile.open at hcontra
    rw [show resolvedProjection f (some p) = p from rfl] at hcontra
    split at hcontra
    · simp at hcontra
    · injection hcontra with h2
      rename_i e hsp
      rcases schema_projection_error_shape f.schema p e hsp with ⟨m, hm⟩
      rw [hm] at h2
      exact ExecutionError.noConfusion h2

/-- A file whose schema holds a nested (list) field and no row groups. -/
def nestedPFile : PFile :=
  ⟨Schema.mk [⟨"items", DataType.List DataType.Int32, true⟩], []⟩

/-- C3 counterexample: opening a file whose schema references a nested (list)
type succeeds, returning a reader instead of a `NotImplemented` error. -/
theorem parquet_open_nested_counterexample :
    (ParquetFile.open nestedPFile none 1024).isOk = true := rfl

/-- Witness for C3 (amended) at the concrete nested-schema file. -/
theorem parquet_open_no_nested_check_witness :
    (ParquetFile.open nestedPFile (some [0]) 1024).isOk = true :=
  (parquet_open_no_nested_check nestedPFile [0] 1024).1 (by decide)

/-- The file read by the C4 scenario: one INT64 physical column whose Arrow
type is `Timestamp(Nanosecond)`, one row group with a single row `100`. -/
def int64TsFile : PFile :=
  ⟨Schema.mk [⟨"timestamp_col", DataType.Timestamp TimeUnit.Nanosecond, false⟩],
    [⟨[⟨PhysicalType.Int64Type, [some (PCell.i64 100)]⟩]⟩]⟩

/-- C4: evaluating the reader on an INT64 column whose target Arrow type is
`Timestamp(Nanosecond)` shows the divergence the spec flags: `load_batch`
selects the `TimestampMicrosecondType` builder (parquet.rs line 436), so the
produced column is a `Timestamp(Microsecond)` array — its values are the INT64
values bitcast unchanged, but its type is not `Timestamp(Nanosecond)`. -/
theorem load_batch_int64_timestamp_ns_uses_microsecond_builder :
    (ParquetFile.open int64TsFile none 1024).map (fun pf =>
        pf.next.1.map (Option.map (fun b =>
          b.columns.map (fun c => (c.atype, c.rows))))) =
      Except.ok (Except.ok (some [(DataType.Timestamp TimeUnit.Microsecond,
        [some (PCell.i64 100)])]))
    ∧ DataType.Timestamp TimeUnit.Microsecond
        ≠ DataType.Timestamp TimeUnit.Nanosecond :=
  ⟨rfl, by decide⟩

/-- C5 (amended): with a projection of length zero, `load_batch` sees a batch
with no columns and reports it as empty, so `next` signals end of stream
(`Ok(None)`) instead of producing zero-column batches. -/
theorem parquet_empty_projection_end_of_stream (f : PFile) (bs : Nat)
    (pf : ParquetFile) (hrg : f.rowGroups ≠ [])
    (hopen : ParquetFile.open f (some []) bs = Except.ok pf) :
    pf.next.1 = Except.ok none := by
  have hopen' : ParquetFile.open f (some []) bs = Except.ok {
      reader := f
      row_group_index := 0
      projection_schema := Schema.mk []
      projection := []
      batch_size := bs
      current_row_group := none
      column_readers := [] } := rfl
  rw [hopen'] at hopen
  injection hopen with h
  subst h
  have hlt : 0 < f.rowGroups.length := List.length_pos.mpr hrg
  simp [ParquetFile.next, ParquetFile.load_next_row_group, hlt,
    collectColumnReaders, ParquetFile.load_batch, loadBatchLoop]

/-- The file read by the C5 scenario: one INT32 column, one row group with
two rows. -/
def twoRowPFile : PFile :=
  ⟨Schema.mk [⟨"id", DataType.Int32, false⟩],
    [⟨[⟨PhysicalType.Int32Type, [some (PCell.i32 4), some (PCell.i32 5)]⟩]⟩]⟩

/-- C5 counterexample: opened with the zero-length projection over a file
with a non-empty row group, the first `next` returns `Ok(None)` (end of
stream), not a zero-column batch of two rows. -/
theorem parquet_empty_projection_counterexample :
    (ParquetFile.open twoRowPFile (some []) 1024).map (fun pf => pf.next.1) =
      Except.ok (Except.ok none) := rfl

/-- The reader state `ParquetFile::open` builds on `twoRowPFile` with the
empty projection. -/
def twoRowOpenedFile : ParquetFile :=
  { reader := twoRowPFile
    projection := []
    projection_schema := Schema.mk []
    batch_size := 1024
    row_group_index := 0
    current_row_group := none
    column_readers := [] }

/-- Witness for C5 (amended) at the concrete two-row file. -/
theorem parquet_empty_projection_end_of_stream_witness :
    twoRowOpenedFile.next.1 = Except.ok none :=
  parquet_empty_projection_end_of_stream twoRowPFile 1024 twoRowOpenedFile
    (by decide) rfl

/-! ## The hash aggregate operator (`hash_aggregate.rs`) -/

/-- Error kinds of `datafusion::error::DataFusionError` used by
`hash_aggregate.rs`.  The stream adapters convert these into Arrow errors
(`into_arrow_external_error`) at the `Stream` boundary; the model keeps the
original kind. -/
inductive DataFusionError
  | Internal (msg : String)
  | NotImplemented (msg : String)
  | ArrowErr (msg : String)
  | General (msg : String)
deriving DecidableEq, Repr

/-- A cell of an Arrow array as the aggregate operator reads and builds them.
Floats are raw bit patterns (never computed with here). -/
inductive CellValue
  | u8 (n : Nat)
  | u16 (n : Nat)
  | u32 (n : Nat)
  | u64 (n : Nat)
  | i8 (v : Int)
  | i16 (v : Int)
  | i32 (v : Int)
  | i64 (v : Int)
  | str (s : String)
  | f32bits (n : Nat)
  | f64bits (n : Nat)
  | nullv
deriving DecidableEq, Repr

instance : Inhabited CellValue := ⟨CellValue.nullv⟩

/-- An Arrow array on the aggregate side: its data type and its cells. -/
structure AggColumn where
  dtype : DataType
  cells : List CellValue
deriving DecidableEq, Repr

instance : Inhabited AggColumn := ⟨⟨default, []⟩⟩

/-- An Arrow record batch on the aggregate side.  `num_rows` is the row count
Arrow stores with the batch (the common length of the columns). -/
structure AggBatch where
  schema : Schema
  columns : List AggColumn
  num_rows : Nat
deriving DecidableEq, Repr

/-- `GroupByScalar` (group_scalar.rs): one cell of a group key. -/
inductive GroupByScalar
  | UInt8 (n : Nat)
  | UInt16 (n : Nat)
  | UInt32 (n : Nat)
  | UInt64 (n : Nat)
  | Int8 (v : Int)
  | Int16 (v : Int)
  | Int32 (v : Int)
  | Int64 (v : Int)
  | Utf8 (s : String)
deriving DecidableEq, Repr

/-- A physical expression (the `PhysicalExpr` trait as the operator uses it):
data type and nullability against an input schema, and columnar evaluation
against a batch. -/
structure PhysicalExprM where
  data_type : Schema → Except DataFusionError DataType
  nullable : Schema → Except DataFusionError Bool
  evaluate : AggBatch → Except DataFusionError AggColumn

instance : Inhabited PhysicalExprM :=
  ⟨⟨fun _ => Except.error (DataFusionError.Internal "default expr"),
    fun _ => Except.error (DataFusionError.Internal "default expr"),
    fun _ => Except.error (DataFusionError.Internal "default expr")⟩⟩

/-- A scalar value with the Arrow type of its one-element `to_array`
(`ScalarValue::to_array`). -/
structure ScalarVal where
  dtype : DataType
  val : CellValue
deriving DecidableEq, Repr

/-- `ScalarValue::to_array`: a single-element array. -/
def ScalarVal.to_array (s : ScalarVal) : AggColumn := ⟨s.dtype, [s.val]⟩

/-- An aggregate expression (the `AggregateExpr` trait) together with the
behavior of the accumulators it creates (the `Accumulator` trait with
abstract state type `Acc`): the trait-object methods become record fields,
so an accumulator is an `Acc` value interpreted through its aggregate. -/
structure AggregateExprM (Acc : Type) where
  expressions : List PhysicalExprM
  state_fields : Except DataFusionError (List Field)
  field : Except DataFusionError Field
  create_accumulator : Except DataFusionError Acc
  update_batch : Acc → List AggColumn → Except DataFusionError Acc
  merge_batch : Acc → List AggColumn → Except DataFusionError Acc
  state : Acc → Except DataFusionError (List ScalarVal)
  evaluate : Acc → Except DataFusionError ScalarVal

/-- Hash aggregate modes (hash_aggregate.rs lines 52-58). -/
inductive AggregateMode
  | Partial
  | Final
deriving DecidableEq, Repr

/-- The grouping-field loop of `create_schema` (hash_aggregate.rs lines
77-83): one `Field::new(name, expr.data_type(input)?, expr.nullable(input)?)`
per grouping expression, in declared order. -/
def groupFieldsLoop (input_schema : Schema) :
    List (PhysicalExprM × String) → Except DataFusionError (List Field)
  | [] => Except.ok []
  | (expr, name) :: rest =>
    match expr.data_type input_schema with
    | Except.ok dt =>
      match expr.nullable input_schema with
      | Except.ok nl =>
        match groupFieldsLoop input_schema rest with
        | Except.ok fs => Except.ok (Field.mk name dt nl :: fs)
        | Except.error e => Except.error e
      | Except.error e => Except.error e
    | Except.error e => Except.error e

/-- The Partial-mode loop of `create_schema` (lines 86-91): each aggregate's
`state_fields()`, kept grouped for the statement below. -/
def stateFieldsLoop {Acc : Type} :
    List (AggregateExprM Acc) → Except DataFusionError (List (List Field))
  | [] => Except.ok []
  | agg :: rest =>
    match agg.state_fields with
    | Except.ok fs =>
      match stateFieldsLoop rest with
      | Except.ok rest' => Except.ok (fs :: rest')
      | Except.error e => Except.error e
    | Except.error e => Except.error e

/-- The Final-mode loop of `create_schema` (lines 92-97): each aggregate's
`field()`. -/
def outFieldsLoop {Acc : Type} :
    List (AggregateExprM Acc) → Except DataFusionError (List Field)
  | [] => Except.ok []
  | agg :: rest =>
    match agg.field with
    | Except.ok f =>
      match outFieldsLoop rest with
      | Except.ok rest' => Except.ok (f :: rest')
      | Except.error e => Except.error e
    | Except.error e => Except.error e

/-- Embedding of `create_schema` (hash_aggregate.rs lines 70-101). -/
def create_schema {Acc : Type} (input_schema : Schema)
    (group_expr : List (PhysicalExprM × String))
    (aggr_expr : List (AggregateExprM Acc)) (mode : AggregateMode) :
    Except DataFusionError Schema :=
  match groupFieldsLoop input_schema group_expr with
  | Except.ok gfields =>
    match mode with
    | AggregateMode.Partial =>
      match stateFieldsLoop aggr_expr with
      | Except.ok sfs => Except.ok (Schema.mk (gfields ++ sfs.flatten))
      | Except.error e => Except.error e
    | AggregateMode.Final =>
      match outFieldsLoop aggr_expr with
      | Except.ok fs => Except.ok (Schema.mk (gfields ++ fs))
      | Except.error e => Except.error e
  | Except.error e => Except.error e

/-- The `HashAggregateExec` plan node (hash_aggregate.rs lines 62-68); the
input plan contributes only its schema here. -/
structure HashAggregateExec (Acc : Type) where
  mode : AggregateMode
  group_expr : List (PhysicalExprM × String)
  aggr_expr : List (AggregateExprM Acc)
  schema : Schema

/-- Embedding of `HashAggregateExec::try_new` (hash_aggregate.rs lines
105-122). -/
def HashAggregateExec.try_new {Acc : Type} (mode : AggregateMode)
    (group_expr : List (PhysicalExprM × String))
    (aggr_expr : List (AggregateExprM Acc)) (input_schema : Schema) :
    Except DataFusionError (HashAggregateExec Acc) :=
  match create_schema input_schema group_expr aggr_expr mode with
  | Except.ok s => Except.ok ⟨mode, group_expr, aggr_expr, s⟩
  | Except.error e => Except.error e

/-! ## Grouped execution (`group_aggregate_batch`, `create_batch_from_map`) -/

/-- One column read of `create_key` (hash_aggregate.rs lines 707-753):
dispatch on the column's data type.  Supported types read the typed cell at
`row` (the source's `downcast_ref().unwrap()` cannot fail on a well-typed
array; a mismatched cell yields the variant's default, standing for that
unreachable branch); unsupported types raise the `Internal` error of line
748. -/
def keyCell (col : AggColumn) (row : Nat) : Except DataFusionError GroupByScalar :=
  match col.dtype, col.cells.getD row CellValue.nullv with
  | DataType.UInt8, CellValue.u8 n => Except.ok (GroupByScalar.UInt8 n)
  | DataType.UInt8, _ => Except.ok (GroupByScalar.UInt8 0)
  | DataType.UInt16, CellValue.u16 n => Except.ok (GroupByScalar.UInt16 n)
  | DataType.UInt16, _ => Except.ok (GroupByScalar.UInt16 0)
  | DataType.UInt32, CellValue.u32 n => Except.ok (GroupByScalar.UInt32 n)
  | DataType.UInt32, _ => Except.ok (GroupByScalar.UInt32 0)
  | DataType.UInt64, CellValue.u64 n => Except.ok (GroupByScalar.UInt64 n)
  | DataType.UInt64, _ => Except.ok (GroupByScalar.UInt64 0)
  | DataType.Int8, CellValue.i8 v => Except.ok (GroupByScalar.Int8 v)
  | DataType.Int8, _ => Except.ok (GroupByScalar.Int8 0)
  | DataType.Int16, CellValue.i16 v => Except.ok (GroupByScalar.Int16 v)
  | DataType.Int16, _ => Except.ok (GroupByScalar.Int16 0)
  | DataType.Int32, CellValue.i32 v => Except.ok (GroupByScalar.Int32 v)
  | DataType.Int32, _ => Except.ok (GroupByScalar.Int32 0)
  | DataType.Int64, CellValue.i64 v => Except.ok (GroupByScalar.Int64 v)
  | DataType.Int64, _ => Except.ok (GroupByScalar.Int64 0)
  | DataType.Utf8, CellValue.str s => Except.ok (GroupByScalar.Utf8 s)
  | DataType.Utf8, _ => Except.ok (GroupByScalar.Utf8 "")
  | _, _ => Except.error (DataFusionError.Internal "Unsupported GROUP BY data type")

/-- Embedding of `create_key` (hash_aggregate.rs lines 702-755): one
`GroupByScalar` per grouping column, read at `row`. -/
def create_key (group_by_keys : List AggColumn) (row : Nat) :
    Except DataFusionError (List GroupByScalar) :=
  match group_by_keys with
  | [] => Except.ok []
  | col :: rest =>
    match keyCell col row with
    | Except.ok k =>
      match create_key rest row with
      | Except.ok ks => Except.ok (k :: ks)
      | Except.error e => Except.error e
    | Except.error e => Except.error e

/-- `create_accumulators` (hash_aggregate.rs lines 662-669). -/
def create_accumulators {Acc : Type} :
    List (AggregateExprM Acc) → Except DataFusionError (List Acc)
  | [] => Except.ok []
  | agg :: rest =>
    match agg.create_accumulator with
    | Except.ok a =>
      match create_accumulators rest with
      | Except.ok accs => Except.ok (a :: accs)
      | Except.error e => Except.error e
    | Except.error e => Except.error e

/-- The group map `Accumulators` (hash_aggregate.rs line 339).  The
`FnvHashMap` is modelled as an association list in first-insertion order; its
iteration order is unspecified in the source and nothing proved below depends
on the order. -/
abbrev Accumulators (Acc : Type) :=
  List (List GroupByScalar × (List Acc × List Nat))

/-- The `Some((_, v)) => v.push(row)` arm of the row loop (line 268). -/
def appendRowIdx {Acc : Type} :
    Accumulators Acc → List GroupByScalar → Nat → Accumulators Acc
  | [], _, _ => []
  | (k', e) :: rest, k, row =>
    if k' = k then (k', (e.1, e.2 ++ [row])) :: rest
    else (k', e) :: appendRowIdx rest k row

/-- The per-row phase of `group_aggregate_batch` (hash_aggregate.rs lines
253-270): build the key of each row in order, insert fresh accumulators with
`vec![row]` on a miss, append the row index on a hit. -/
def rowLoop {Acc : Type} (aggr_expr : List (AggregateExprM Acc))
    (group_values : List AggColumn) :
    List Nat → Accumulators Acc → Except DataFusionError (Accumulators Acc)
  | [], m => Except.ok m
  | row :: rest, m =>
    match create_key group_values row with
    | Except.ok key =>
      if m.any (fun e => e.1 = key) then
        rowLoop aggr_expr group_values rest (appendRowIdx m key row)
      else
        match create_accumulators aggr_expr with
        | Except.ok fresh =>
          rowLoop aggr_expr group_values rest (m ++ [(key, (fresh, [row]))])
        | Except.error e => Except.error e
    | Except.error e => Except.error e

/-- The `take` compute kernel on one input column, with unchecked indices. -/
def takeColumn (col : AggColumn) (indices : List Nat) : AggColumn :=
  ⟨col.dtype, indices.map (fun i => col.cells.getD i CellValue.nullv)⟩

/-- The per-aggregate update of one map entry (hash_aggregate.rs lines
282-310): gather each input column at the entry's indices, then
`update_batch` (Partial) or `merge_batch` (Final).  The source zips the
accumulator set with the input values and reaches `update_batch` through the
trait object; here the aggregate list supplies those methods. -/
def updateAccumulators {Acc : Type} (mode : AggregateMode) (indices : List Nat) :
    List (AggregateExprM Acc) → List Acc → List (List AggColumn) →
      Except DataFusionError (List Acc)
  | [], _, _ => Except.ok []
  | _ :: _, [], _ => Except.ok []
  | _ :: _, _ :: _, [] => Except.ok []
  | agg :: aggs, acc :: accs, vals :: valss =>
    let gathered := vals.map (fun a => takeColumn a indices)
    match (match mode with
      | AggregateMode.Partial => agg.update_batch acc gathered
      | AggregateMode.Final => agg.merge_batch acc gathered) with
    | Except.ok acc' =>
      match updateAccumulators mode indices aggs accs valss with
      | Except.ok accs' => Except.ok (acc' :: accs')
      | Except.error e => Except.error e
    | Except.error e => Except.error e

/-- The per-entry phase of `group_aggregate_batch` (hash_aggregate.rs lines
277-314): update every entry's accumulators, then clear its indices. -/
def entryLoop {Acc : Type} (mode : AggregateMode)
    (aggr_expr : List (AggregateExprM Acc))
    (aggr_input_values : List (List AggColumn)) :
    Accumulators Acc → Except DataFusionError (Accumulators Acc)
  | [] => Except.ok []
  | (k, (accs, indices)) :: rest =>
    match updateAccumulators mode indices aggr_expr accs aggr_input_values with
    | Except.ok accs' =>
      match entryLoop mode aggr_expr aggr_input_values rest with
      | Except.ok rest' => Except.ok ((k, (accs', [])) :: rest')
      | Except.error e => Except.error e
    | Except.error e => Except.error e

/-- `evaluate` (hash_aggregate.rs lines 412-419). -/
def evaluateExprs (exprs : List PhysicalExprM) (batch : AggBatch) :
    Except DataFusionError (List AggColumn) :=
  match exprs with
  | [] => Except.ok []
  | e :: rest =>
    match e.evaluate batch with
    | Except.ok c =>
      match evaluateExprs rest batch with
      | Except.ok cs => Except.ok (c :: cs)
      | Except.error err => Except.error err
    | Except.error err => Except.error err

/-- `evaluate_many` (hash_aggregate.rs lines 422-429). -/
def evaluateMany (exprs : List (List PhysicalExprM)) (batch : AggBatch) :
    Except DataFusionError (List (List AggColumn)) :=
  match exprs with
  | [] => Except.ok []
  | es :: rest =>
    match evaluateExprs es batch with
    | Except.ok cs =>
      match evaluateMany rest batch with
      | Except.ok css => Except.ok (cs :: css)
      | Except.error err => Except.error err
    | Except.error err => Except.error err

/-- `expressions::Column::new(name)`: data type, nullability and evaluation by
name lookup in the schema. -/
def columnExpr (name : String) : PhysicalExprM where
  data_type := fun s =>
    match s.fields.find? (fun f => f.name = name) with
    | some f => Except.ok f.data_type
    | none => Except.error (DataFusionError.General "column not found")
  nullable := fun s =>
    match s.fields.find? (fun f => f.name = name) with
    | some f => Except.ok f.nullable
    | none => Except.error (DataFusionError.General "column not found")
  evaluate := fun b =>
    match b.schema.fields.findIdx? (fun f => f.name = name) with
    | some i => Except.ok (b.columns.getD i default)
    | none => Except.error (DataFusionError.General "column not found")

/-- `merge_expressions` (hash_aggregate.rs lines 432-440): one `Column`
reference per `state_fields()` entry. -/
def merge_expressions {Acc : Type} (agg : AggregateExprM Acc) :
    Except DataFusionError (List PhysicalExprM) :=
  match agg.state_fields with
  | Except.ok fs => Except.ok (fs.map (fun f => columnExpr f.name))
  | Except.error e => Except.error e

def mergeExpressionsLoop {Acc : Type} :
    List (AggregateExprM Acc) → Except DataFusionError (List (List PhysicalExprM))
  | [] => Except.ok []
  | agg :: rest =>
    match merge_expressions agg with
    | Except.ok es =>
      match mergeExpressionsLoop rest with
      | Except.ok rest' => Except.ok (es :: rest')
      | Except.error e => Except.error e
    | Except.error e => Except.error e

/-- `aggregate_expressions` (hash_aggregate.rs lines 449-463): per-aggregate
input expressions — `expressions()` in Partial mode, `state_fields()` column
references in Final mode. -/
def aggregate_expressions {Acc : Type} (aggr_expr : List (AggregateExprM Acc))
    (mode : AggregateMode) : Except DataFusionError (List (List PhysicalExprM)) :=
  match mode with
  | AggregateMode.Partial => Except.ok (aggr_expr.map (fun agg => agg.expressions))
  | AggregateMode.Final => mergeExpressionsLoop aggr_expr

/-- Embedding of `group_aggregate_batch` (hash_aggregate.rs lines 226-316). -/
def group_aggregate_batch {Acc : Type} (mode : AggregateMode)
    (group_expr : List PhysicalExprM) (aggr_expr : List (AggregateExprM Acc))
    (batch : AggBatch) (accumulators : Accumulators Acc)
    (aggregate_exprs : List (List PhysicalExprM)) :
    Except DataFusionError (Accumulators Acc) :=
  match evaluateExprs group_expr batch with
  | Except.ok group_values =>
    match evaluateMany aggregate_exprs batch with
    | Except.ok aggr_input_values =>
      match rowLoop aggr_expr group_values (List.range batch.num_rows) accumulators with
      | Except.ok m => entryLoop mode aggr_expr aggr_input_values m
      | Except.error e => Except.error e
    | Except.error e => Except.error e
  | Except.error e => Except.error e

/-- `finalize_aggregation` (hash_aggregate.rs lines 673-699): in Partial mode
the flattened single-element state arrays of every accumulator, in Final mode
one single-element `evaluate()` array per accumulator.  The aggregate list
supplies the trait-object methods of each accumulator. -/
def finalize_aggregation {Acc : Type} (mode : AggregateMode) :
    List (AggregateExprM Acc) → List Acc → Except DataFusionError (List AggColumn)
  | [], _ => Except.ok []
  | _ :: _, [] => Except.ok []
  | agg :: aggs, acc :: accs =>
    match mode with
    | AggregateMode.Partial =>
      match agg.state acc with
      | Except.ok svals =>
        match finalize_aggregation mode aggs accs with
        | Except.ok cols => Except.ok (svals.map ScalarVal.to_array ++ cols)
        | Except.error e => Except.error e
      | Except.error e => Except.error e
    | AggregateMode.Final =>
      match agg.evaluate acc with
      | Except.ok v =>
        match finalize_aggregation mode aggs accs with
        | Except.ok cols => Except.ok (v.to_array :: cols)
        | Except.error e => Except.error e
      | Except.error e => Except.error e

/-- The single-element group-key arrays of `create_batch_from_map`
(hash_aggregate.rs lines 625-639). -/
def GroupByScalar.to_array : GroupByScalar → AggColumn
  | GroupByScalar.UInt8 n => ⟨DataType.UInt8, [CellValue.u8 n]⟩
  | GroupByScalar.UInt16 n => ⟨DataType.UInt16, [CellValue.u16 n]⟩
  | GroupByScalar.UInt32 n => ⟨DataType.UInt32, [CellValue.u32 n]⟩
  | GroupByScalar.UInt64 n => ⟨DataType.UInt64, [CellValue.u64 n]⟩
  | GroupByScalar.Int8 v => ⟨DataType.Int8, [CellValue.i8 v]⟩
  | GroupByScalar.Int16 v => ⟨DataType.Int16, [CellValue.i16 v]⟩
  | GroupByScalar.Int32 v => ⟨DataType.Int32, [CellValue.i32 v]⟩
  | GroupByScalar.Int64 v => ⟨DataType.Int64, [CellValue.i64 v]⟩
  | GroupByScalar.Utf8 s => ⟨DataType.Utf8, [CellValue.str s]⟩

/-- The column arrays of one map entry (hash_aggregate.rs lines 623-647):
group-key arrays first, then the finalized accumulator arrays. -/
def entryArrays {Acc : Type} (mode : AggregateMode)
    (aggr_expr : List (AggregateExprM Acc)) (num_group_expr : Nat)
    (k : List GroupByScalar) (accs : List Acc) :
    Except DataFusionError (List AggColumn) :=
  let groups := (List.range num_group_expr).map
    (fun i => (k.getD i (GroupByScalar.UInt32 0)).to_array)
  match finalize_aggregation mode aggr_expr accs with
  | Except.ok cols => Except.ok (groups ++ cols)
  | Except.error e => Except.error e

def entryArraysLoop {Acc : Type} (mode : AggregateMode)
    (aggr_expr : List (AggregateExprM Acc)) (num_group_expr : Nat) :
    Accumulators Acc → Except DataFusionError (List (List AggColumn))
  | [] => Except.ok []
  | (k, (accs, _)) :: rest =>
    match entryArrays mode aggr_expr num_group_expr k accs with
    | Except.ok a =>
      match entryArraysLoop mode aggr_expr num_group_expr rest with
      | Except.ok rest' => Except.ok (a :: rest')
      | Except.error e => Except.error e
    | Except.error e => Except.error e

/-- `concatenate(arrays)` (hash_aggregate.rs lines 600-607): for each column
index of the first entry, `concat` that column across all entries.  Arrow's
`concat` fails only on mixed types, which the per-key construction cannot
produce, so the model concatenates the rows. -/
def concatenate (arrays : List (List AggColumn)) : List AggColumn :=
  (List.range (arrays.headD []).length).map (fun j =>
    ⟨((arrays.headD []).getD j default).dtype,
      (arrays.map (fun a => (a.getD j default).cells)).flatten⟩)

/-- Modelled from the spec: `RecordBatch::try_new` on the aggregate side —
the Arrow columnar library is not under `src/`; §3 gives the invariant
`columns.len() == schema.fields.len()` with all columns sharing one length. -/
def AggBatch.try_new (schema : Schema) (columns : List AggColumn) :
    Except DataFusionError AggBatch :=
  if columns.length = schema.fields.length
      ∧ ∀ c ∈ columns, c.cells.length = (columns.headD default).cells.length then
    Except.ok ⟨schema, columns, (columns.headD default).cells.length⟩
  else
    Except.error (DataFusionError.ArrowErr "invalid record batch")

/-- Modelled from the spec: `common::create_batch_empty(schema)` is not under
`src/`; §4.4 step 4 says "If the map is empty, emit an empty batch matching
the output schema", so the model is one empty array per schema field. -/
def create_batch_empty (schema : Schema) : AggBatch :=
  ⟨schema, schema.fields.map (fun f => ⟨f.data_type, []⟩), 0⟩

/-- Embedding of `create_batch_from_map` (hash_aggregate.rs lines 610-660). -/
def create_batch_from_map {Acc : Type} (mode : AggregateMode)
    (accumulators : Accumulators Acc) (aggr_expr : List (AggregateExprM Acc))
    (num_group_expr : Nat) (output_schema : Schema) :
    Except DataFusionError AggBatch :=
  match entryArraysLoop mode aggr_expr num_group_expr accumulators with
  | Except.ok arrays =>
    if arrays.length ≠ 0 then
      AggBatch.try_new output_schema (concatenate arrays)
    else
      Except.ok (create_batch_empty output_schema)
  | Except.error e => Except.error e

def foldBatches {Acc : Type} (mode : AggregateMode)
    (group_expr : List PhysicalExprM) (aggr_expr : List (AggregateExprM Acc))
    (aggregate_exprs : List (List PhysicalExprM)) :
    List AggBatch → Accumulators Acc → Except DataFusionError (Accumulators Acc)
  | [], m => Except.ok m
  | b :: bs, m =>
    match group_aggregate_batch mode group_expr aggr_expr b m aggregate_exprs with
    | Except.ok m' => foldBatches mode group_expr aggr_expr aggregate_exprs bs m'
    | Except.error e => Except.error e

/-- The single-batch computation of `GroupedHashAggregateStream::poll_next`
(hash_aggregate.rs lines 344-402): derive the per-aggregate input
expressions, `try_fold` `group_aggregate_batch` over the input batches
starting from the empty map, then build the one output batch from the map.
The `finished` flag makes every later poll return `None`, so this is the
stream's entire output. -/
def grouped_hash_aggregate {Acc : Type} (mode : AggregateMode)
    (schema : Schema) (group_expr : List PhysicalExprM)
    (aggr_expr : List (AggregateExprM Acc)) (input : List AggBatch) :
    Except DataFusionError AggBatch :=
  match aggregate_expressions aggr_expr mode with
  | Except.ok aggr_exprs =>
    match foldBatches mode group_expr aggr_expr aggr_exprs input [] with
    | Except.ok accumulators =>
      create_batch_from_map mode accumulators aggr_expr group_expr.length schema
    | Except.error e => Except.error e
  | Except.error e => Except.error e

/-! ## Ungrouped execution (`HashAggregateStream`) -/

/-- Embedding of `aggregate_batch` (hash_aggregate.rs lines 491-524): zip the
accumulators with their expressions, evaluate, then `update_batch` (Partial)
or `merge_batch` (Final).  The aggregate list supplies each accumulator's
trait-object methods. -/
def aggregate_batch {Acc : Type} (mode : AggregateMode) (batch : AggBatch) :
    List (AggregateExprM Acc) → List Acc → List (List PhysicalExprM) →
      Except DataFusionError (List Acc)
  | [], _, _ => Except.ok []
  | _ :: _, [], _ => Except.ok []
  | _ :: _, _ :: _, [] => Except.ok []
  | agg :: aggs, acc :: accs, exprs :: exprss =>
    match evaluateExprs exprs batch with
    | Except.ok values =>
      match (match mode with
        | AggregateMode.Partial => agg.update_batch acc values
        | AggregateMode.Final => agg.merge_batch acc values) with
      | Except.ok acc' =>
        match aggregate_batch mode batch aggs accs exprss with
        | Except.ok accs' => Except.ok (acc' :: accs')
        | Except.error e => Except.error e
      | Except.error e => Except.error e
    | Except.error e => Except.error e

def foldUngrouped {Acc : Type} (mode : AggregateMode)
    (aggr_expr : List (AggregateExprM Acc))
    (expressions : List (List PhysicalExprM)) :
    List AggBatch → List Acc → Except DataFusionError (List Acc)
  | [], accs => Except.ok accs
  | b :: bs, accs =>
    match aggregate_batch mode b aggr_expr accs expressions with
    | Except.ok accs' => foldUngrouped mode aggr_expr expressions bs accs'
    | Except.error e => Except.error e

/-- The single-batch computation of `HashAggregateStream::poll_next`
(hash_aggregate.rs lines 529-589): create fresh accumulators, derive the
expressions, `try_fold` `aggregate_batch` over the input batches, finalize,
and build the one output batch.  The `finished` flag makes every later poll
return `None`, so this is the stream's entire output. -/
def hash_aggregate_stream_batch {Acc : Type} (mode : AggregateMode)
    (schema : Schema) (aggr_expr : List (AggregateExprM Acc))
    (input : List AggBatch) : Except DataFusionError AggBatch :=
  match create_accumulators aggr_expr with
  | Except.ok accumulators =>
    match aggregate_expressions aggr_expr mode with
    | Except.ok expressions =>
      match foldUngrouped mode aggr_expr expressions input accumulators with
      | Except.ok accs =>
        match finalize_aggregation mode aggr_expr accs with
        | Except.ok columns => AggBatch.try_new schema columns
        | Except.error e => Except.error e
      | Except.error e => Except.error e
    | Except.error e => Except.error e
  | Except.error e => Except.error e

/-! ## C8: the output schema of `HashAggregateExec` -/

theorem groupFieldsLoop_spec (input_schema : Schema)
    (ge : List (PhysicalExprM × String)) (gfields : List Field)
    (h : groupFieldsLoop input_schema ge = Except.ok gfields) :
    gfields.length = ge.length ∧
    ∀ i, i < ge.length →
      ∃ dt nl, (ge.getD i default).1.data_type input_schema = Except.ok dt
        ∧ (ge.getD i default).1.nullable input_schema = Except.ok nl
        ∧ gfields.getD i default = Field.mk (ge.getD i default).2 dt nl := by
  induction ge generalizing gfields with
  | nil =>
    simp only [groupFieldsLoop, Except.ok.injEq] at h
    subst h
    exact ⟨rfl, fun i hi => absurd hi (by simp)⟩
  | cons en rest ih =>
    obtain ⟨e, n⟩ := en
    simp only [groupFieldsLoop] at h
    cases hdt : e.data_type input_schema with
    | error err =>
      rw [hdt] at h
      simp at h
    | ok dt =>
      rw [hdt] at h
      cases hnl : e.nullable input_schema with
      | error err =>
        rw [hnl] at h
        simp at h
      | ok nl =>
        rw [hnl] at h
        cases hrest : groupFieldsLoop input_schema rest with
        | error err =>
          rw [hrest] at h
          simp at h
        | ok fs =>
          rw [hrest] at h
          injection h with h2
          subst h2
          obtain ⟨hlen, hel⟩ := ih fs hrest
          refine ⟨by simp [hlen], ?_⟩
          intro i hi
          cases i with
          | zero => exact ⟨dt, nl, by simpa using hdt, by simpa using hnl, by simp⟩
          | succ i =>
            have hi' : i < rest.length := Nat.lt_of_succ_lt_succ hi
            simpa [List.getD_cons_succ] using hel i hi'

/-- C8: the output schema of a `HashAggregateExec` built by `try_new` is one
field per grouping expression first, in declared order and bearing the
declared name, followed in Partial mode by the concatenation of every
aggregate's `state_fields()` in aggregate order, and in Final mode by every
aggregate's `field()` in aggregate order. -/
theorem hash_aggregate_output_schema {Acc : Type} (mode : AggregateMode)
    (group_expr : List (PhysicalExprM × String))
    (aggr_expr : List (AggregateExprM Acc)) (input_schema : Schema)
    (exec : HashAggregateExec Acc)
    (h : HashAggregateExec.try_new mode group_expr aggr_expr input_schema
      = Except.ok exec) :
    ∃ gfields,
      groupFieldsLoop input_schema group_expr = Except.ok gfields
      ∧ gfields.length = group_expr.length
      ∧ exec.schema.fields.take group_expr.length = gfields
      ∧ (∀ i, i < group_expr.length →
          (gfields.getD i default).name = (group_expr.getD i default).2)
      ∧ (mode = AggregateMode.Partial →
          ∃ sfs, stateFieldsLoop aggr_expr = Except.ok sfs
            ∧ exec.schema.fields.drop group_expr.length = sfs.flatten)
      ∧ (mode = AggregateMode.Final →
          ∃ fs, outFieldsLoop aggr_expr = Except.ok fs
            ∧ exec.schema.fields.drop group_expr.length = fs) := by
  unfold HashAggregateExec.try_new at h
  cases hcs : create_schema input_schema group_expr aggr_expr mode with
  | error err =>
    rw [hcs] at h
    simp at h
  | ok s =>
    rw [hcs] at h
    injection h with h2
    subst h2
    unfold create_schema at hcs
    cases hg : groupFieldsLoop input_schema group_expr with
    | error err =>
      rw [hg] at hcs
      simp at hcs
    | ok gfields =>
      rw [hg] at hcs
      obtain ⟨hlen, hel⟩ := groupFieldsLoop_spec input_schema group_expr gfields hg
      cases mode with
      | Partial =>
        cases hsf : stateFieldsLoop aggr_expr with
        | error err =>
          rw [hsf] at hcs
          simp at hcs
        | ok sfs =>
          rw [hsf] at hcs
          injection hcs with h3
          subst h3
          refine ⟨gfields, rfl, hlen, ?_, ?_, ?_, ?_⟩
          · show (gfields ++ sfs.flatten).take group_expr.length = gfields
            rw [← hlen, List.take_left]
          · intro i hi
            obtain ⟨dt, nl, _, _, hfield⟩ := hel i hi
            rw [hfield]
          · intro _
            refine ⟨sfs, rfl, ?_⟩
            show (gfields ++ sfs.flatten).drop group_expr.length = sfs.flatten
            rw [← hlen, List.drop_left]
          · intro hmode
            exact absurd hmode (by simp)
      | Final =>
        cases hof : outFieldsLoop aggr_expr with
        | error err =>
          rw [hof] at hcs
          simp at hcs
        | ok fs =>
          rw [hof] at hcs
          injection hcs with h3
          subst h3
          refine ⟨gfields, rfl, hlen, ?_, ?_, ?_, ?_⟩
          · show (gfields ++ fs).take group_expr.length = gfields
            rw [← hlen, List.take_left]
          · intro i hi
            obtain ⟨dt, nl, _, _, hfield⟩ := hel i hi
            rw [hfield]
          · intro hmode
            exact absurd hmode (by simp)
          · intro _
            refine ⟨fs, rfl, ?_⟩
            show (gfields ++ fs).drop group_expr.length = fs
            rw [← hlen, List.drop_left]

/-- The input schema of the test scenario of hash_aggregate.rs
(`some_data`): `a: UInt32, b: Float64`. -/
def testInputSchema : Schema :=
  Schema.mk [⟨"a", DataType.UInt32, false⟩, ⟨"b", DataType.Float64, false⟩]

/-- A grouping expression reading column 0 (`col("a")`). -/
def colAExpr : PhysicalExprM where
  data_type := fun _ => Except.ok DataType.UInt32
  nullable := fun _ => Except.ok false
  evaluate := fun b => Except.ok (b.columns.getD 0 default)

/-- A concrete aggregate in the shape of `Avg(col("b"))`: state fields
`[count: UInt64, sum: Float64]`, output field `AVG(b): Float64`, trivial
accumulator behavior over the opaque state `Unit` (the claims proved here do
not depend on the numeric folds). -/
def avgShapedAgg : AggregateExprM Unit where
  expressions := [columnExpr "b"]
  state_fields := Except.ok
    [⟨"AVG(b)[count]", DataType.UInt64, true⟩,
     ⟨"AVG(b)[sum]", DataType.Float64, true⟩]
  field := Except.ok ⟨"AVG(b)", DataType.Float64, true⟩
  create_accumulator := Except.ok ()
  update_batch := fun _ _ => Except.ok ()
  merge_batch := fun _ _ => Except.ok ()
  state := fun _ => Except.ok
    [⟨DataType.UInt64, CellValue.u64 0⟩, ⟨DataType.Float64, CellValue.f64bits 0⟩]
  evaluate := fun _ => Except.ok ⟨DataType.Float64, CellValue.f64bits 0⟩

/-- The exec node `try_new` builds for the witness scenario. -/
def witnessExec : HashAggregateExec Unit :=
  ⟨AggregateMode.Partial, [(colAExpr, "a")], [avgShapedAgg],
    Schema.mk [⟨"a", DataType.UInt32, false⟩,
      ⟨"AVG(b)[count]", DataType.UInt64, true⟩,
      ⟨"AVG(b)[sum]", DataType.Float64, true⟩]⟩

/-- Witness for C8 on the concrete Partial-mode `AVG(b) GROUP BY a` node. -/
theorem hash_aggregate_output_schema_witness :
    ∃ gfields,
      groupFieldsLoop testInputSchema [(colAExpr, "a")] = Except.ok gfields
      ∧ gfields.length = [(colAExpr, "a")].length
      ∧ witnessExec.schema.fields.take [(colAExpr, "a")].length = gfields
      ∧ (∀ i, i < [(colAExpr, "a")].length →
          (gfields.getD i default).name = ([(colAExpr, "a")].getD i default).2)
      ∧ (AggregateMode.Partial = AggregateMode.Partial →
          ∃ sfs, stateFieldsLoop [avgShapedAgg] = Except.ok sfs
            ∧ witnessExec.schema.fields.drop [(colAExpr, "a")].length = sfs.flatten)
      ∧ (AggregateMode.Partial = AggregateMode.Final →
          ∃ fs, outFieldsLoop [avgShapedAgg] = Except.ok fs
            ∧ witnessExec.schema.fields.drop [(colAExpr, "a")].length = fs) :=
  hash_aggregate_output_schema AggregateMode.Partial [(colAExpr, "a")]
    [avgShapedAgg] testInputSchema witnessExec rfl

/-! ## C9: one output row per distinct group key -/

/-- The keys of the group map, in entry order. -/
def keysOf {Acc : Type} (m : Accumulators Acc) : List (List GroupByScalar) :=
  m.map Prod.fst

/-- First-occurrence insertion into the list of observed keys. -/
def insKey (ks : List (List GroupByScalar)) (k : List GroupByScalar) :
    List (List GroupByScalar) :=
  if k ∈ ks then ks else ks ++ [k]

/-- The `create_key` results the row loop derives from one input batch, one
per row. -/
def observedRowKeys (group_expr : List PhysicalExprM) (b : AggBatch) :
    List (Except DataFusionError (List GroupByScalar)) :=
  match evaluateExprs group_expr b with
  | Except.ok gv => (List.range b.num_rows).map (fun r => create_key gv r)
  | Except.error e => (List.range b.num_rows).map (fun _ => Except.error e)

theorem keysOf_cons {Acc : Type} (e : List GroupByScalar × (List Acc × List Nat))
    (m : Accumulators Acc) : keysOf (e :: m) = e.1 :: keysOf m := rfl

theorem keysOf_appendRowIdx {Acc : Type} (m : Accumulators Acc)
    (k : List GroupByScalar) (row : Nat) :
    keysOf (appendRowIdx m k row) = keysOf m := by
  induction m with
  | nil => rfl
  | cons e rest ih =>
    obtain ⟨k', v⟩ := e
    by_cases h : k' = k
    · simp [appendRowIdx, h, keysOf_cons]
    · simp [appendRowIdx, h, keysOf_cons, ih]

theorem any_fst_eq_iff {Acc : Type} (m : Accumulators Acc)
    (k : List GroupByScalar) :
    (m.any (fun e => e.1 = k) = true) ↔ k ∈ keysOf m := by
  simp [List.any_eq_true, keysOf, List.mem_map]

theorem rowLoop_keys {Acc : Type} (aggr_expr : List (AggregateExprM Acc))
    (gv : List AggColumn) (rows : List Nat) (m m' : Accumulators Acc)
    (h : rowLoop aggr_expr gv rows m = Except.ok m') :
    ∃ ks : List (List GroupByScalar),
      rows.map (fun r => create_key gv r) = ks.map Except.ok
      ∧ keysOf m' = ks.foldl insKey (keysOf m) := by
  induction rows generalizing m with
  | nil =>
    simp only [rowLoop, Except.ok.injEq] at h
    subst h
    exact ⟨[], by simp, by simp⟩
  | cons row rest ih =>
    simp only [rowLoop] at h
    split at h
    case h_2 e hk => simp at h
    case h_1 key hk =>
      split at h
      case isTrue hmem =>
        obtain ⟨ks, hks, hkeys⟩ := ih (appendRowIdx m key row) h
        refine ⟨key :: ks, by simp [hk, hks], ?_⟩
        rw [hkeys, keysOf_appendRowIdx]
        simp only [List.foldl_cons]
        rw [show insKey (keysOf m) key = keysOf m from
          by rw [insKey, if_pos ((any_fst_eq_iff m key).mp hmem)]]
      case isFalse hmem =>
        split at h
        case h_2 e hca => simp at h
        case h_1 fresh hca =>
          obtain ⟨ks, hks, hkeys⟩ := ih (m ++ [(key, (fresh, [row]))]) h
          refine ⟨key :: ks, by simp [hk, hks], ?_⟩
          rw [hkeys]
          simp only [List.foldl_cons]
          rw [show keysOf (m ++ [(key, (fresh, [row]))]) = insKey (keysOf m) key from by
            rw [insKey, if_neg (fun hin => hmem ((any_fst_eq_iff m key).mpr hin))]
            simp [keysOf]]

theorem entryLoop_keys {Acc : Type} (mode : AggregateMode)
    (aggr_expr : List (AggregateExprM Acc)) (vals : List (List AggColumn))
    (m m' : Accumulators Acc)
    (h : entryLoop mode aggr_expr vals m = Except.ok m') :
    keysOf m' = keysOf m := by
  induction m generalizing m' with
  | nil =>
    simp only [entryLoop, Except.ok.injEq] at h
    subst h
    rfl
  | cons e rest ih =>
    obtain ⟨k, accs, indices⟩ := e
    simp only [entryLoop] at h
    split at h
    case h_2 err h1 => simp at h
    case h_1 accs' h1 =>
      split at h
      case h_2 err h2 => simp at h
      case h_1 rest' h2 =>
        injection h with h3
        subst h3
        simp [keysOf_cons, ih rest' h2]

theorem group_aggregate_batch_keys {Acc : Type} (mode : AggregateMode)
    (group_expr : List PhysicalExprM) (aggr_expr : List (AggregateExprM Acc))
    (b : AggBatch) (m m' : Accumulators Acc)
    (aggr_exprs : List (List PhysicalExprM))
    (h : group_aggregate_batch mode group_expr aggr_expr b m aggr_exprs
      = Except.ok m') :
    ∃ ks : List (List GroupByScalar),
      observedRowKeys group_expr b = ks.map Except.ok
      ∧ keysOf m' = ks.foldl insKey (keysOf m) := by
  unfold group_aggregate_batch at h
  split at h
  case h_2 e hg => simp at h
  case h_1 gv hg =>
    split at h
    case h_2 e ha => simp at h
    case h_1 vals ha =>
      split at h
      case h_2 e hr => simp at h
      case h_1 mid hr =>
        obtain ⟨ks, hks, hkeys⟩ := rowLoop_keys aggr_expr gv _ m mid hr
        exact ⟨ks, by simp [observedRowKeys, hg, hks],
          by rw [entryLoop_keys mode aggr_expr vals mid m' h, hkeys]⟩

theorem foldBatches_keys {Acc : Type} (mode : AggregateMode)
    (group_expr : List PhysicalExprM) (aggr_expr : List (AggregateExprM Acc))
    (aggr_exprs : List (List PhysicalExprM)) (input : List AggBatch)
    (m m' : Accumulators Acc)
    (h : foldBatches mode group_expr aggr_expr aggr_exprs input m = Except.ok m') :
    ∃ ks : List (List GroupByScalar),
      (input.map (observedRowKeys group_expr)).flatten = ks.map Except.ok
      ∧ keysOf m' = ks.foldl insKey (keysOf m) := by
  induction input generalizing m with
  | nil =>
    simp only [foldBatches, Except.ok.injEq] at h
    subst h
    exact ⟨[], by simp, by simp⟩
  | cons b bs ih =>
    simp only [foldBatches] at h
    split at h
    case h_2 e h1 => simp at h
    case h_1 mid h1 =>
      obtain ⟨ks1, hks1, hkeys1⟩ :=
        group_aggregate_batch_keys mode group_expr aggr_expr b m mid aggr_exprs h1
      obtain ⟨ks2, hks2, hkeys2⟩ := ih mid h
      refine ⟨ks1 ++ ks2, by simp [hks1, hks2], ?_⟩
      rw [hkeys2, hkeys1, List.foldl_append]

theorem mem_foldl_insKey (ks : List (List GroupByScalar))
    (l : List (List GroupByScalar)) (x : List GroupByScalar) :
    x ∈ ks.foldl insKey l ↔ x ∈ l ∨ x ∈ ks := by
  induction ks generalizing l with
  | nil => simp
  | cons k ks ih =>
    simp only [List.foldl_cons, ih]
    unfold insKey
    by_cases h : k ∈ l
    · simp only [if_pos h, List.mem_cons]
      constructor
      · rintro (hl | hk)
        · exact Or.inl hl
        · exact Or.inr (Or.inr hk)
      · rintro (hl | rfl | hk)
        · exact Or.inl hl
        · exact Or.inl h
        · exact Or.inr hk
    · simp only [if_neg h, List.mem_append, List.mem_singleton, List.mem_cons]
      tauto

theorem nodup_foldl_insKey (ks l : List (List GroupByScalar))
    (hl : l.Nodup) : (ks.foldl insKey l).Nodup := by
  induction ks generalizing l with
  | nil => exact hl
  | cons k ks ih =>
    simp only [List.foldl_cons]
    apply ih
    unfold insKey
    by_cases h : k ∈ l
    · simpa [h] using hl
    · rw [if_neg h]
      refine List.Nodup.append hl (List.nodup_singleton k) ?_
      intro a hal hak
      rw [List.mem_singleton] at hak
      subst hak
      exact h hal

theorem length_foldl_insKey_nil (ks : List (List GroupByScalar)) :
    (ks.foldl insKey []).length = ks.toFinset.card := by
  have hnd : (ks.foldl insKey []).Nodup := nodup_foldl_insKey ks [] List.nodup_nil
  have hfin : (ks.foldl insKey []).toFinset = ks.toFinset := by
    ext x
    simp [List.mem_toFinset, mem_foldl_insKey]
  rw [← hfin, List.toFinset_card_of_nodup hnd]

theorem to_array_cells_length (k : GroupByScalar) : k.to_array.cells.length = 1 := by
  cases k <;> rfl

theorem flatten_length_of_singletons {β : Type} (l : List (List β))
    (h : ∀ x ∈ l, x.length = 1) : l.flatten.length = l.length := by
  induction l with
  | nil => rfl
  | cons x xs ih =>
    simp only [List.flatten_cons, List.length_append, List.length_cons,
      h x (List.mem_cons_self x xs),
      ih (fun y hy => h y (List.mem_cons_of_mem x hy))]
    omega

theorem entryArraysLoop_spec {Acc : Type} (mode : AggregateMode)
    (aggr_expr : List (AggregateExprM Acc)) (ng : Nat) (hng : 0 < ng)
    (m : Accumulators Acc) (arrays : List (List AggColumn))
    (h : entryArraysLoop mode aggr_expr ng m = Except.ok arrays) :
    arrays.length = m.length
    ∧ ∀ a ∈ arrays, (a.headD default).cells.length = 1 := by
  induction m generalizing arrays with
  | nil =>
    simp only [entryArraysLoop, Except.ok.injEq] at h
    subst h
    simp
  | cons e rest ih =>
    obtain ⟨k, accs, indices⟩ := e
    simp only [entryArraysLoop] at h
    split at h
    case h_2 err h1 => simp at h
    case h_1 a h1 =>
      split at h
      case h_2 err h2 => simp at h
      case h_1 rest' h2 =>
        injection h with h3
        subst h3
        obtain ⟨hlen, hprops⟩ := ih rest' h2
        refine ⟨by simp [hlen], ?_⟩
        intro x hx
        rcases List.mem_cons.mp hx with rfl | hx
        · -- x comes from `entryArrays`: groups ++ finalized columns
          unfold entryArrays at h1
          split at h1
          case h_2 err hf => simp at h1
          case h_1 cols hf =>
            injection h1 with h4
            subst h4
            obtain ⟨n, hn⟩ : ∃ n, ng = n + 1 :=
              ⟨ng - 1, (Nat.succ_pred_eq_of_pos hng).symm⟩
            subst hn
            rw [List.range_succ_eq_map, List.map_cons]
            simp [to_array_cells_length]
        · exact hprops x hx

theorem concatenate_head_cells (arrays : List (List AggColumn))
    (hhead : 0 < (arrays.headD []).length)
    (hsingle : ∀ a ∈ arrays, (a.headD default).cells.length = 1) :
    concatenate arrays ≠ []
    ∧ ((concatenate arrays).headD default).cells.length = arrays.length := by
  unfold concatenate
  obtain ⟨L, hL⟩ : ∃ L, (arrays.headD []).length = L + 1 :=
    ⟨(arrays.headD []).length - 1, (Nat.succ_pred_eq_of_pos hhead).symm⟩
  rw [hL, List.range_succ_eq_map, List.map_cons]
  refine ⟨by simp, ?_⟩
  simp only [List.headD_cons]
  show ((arrays.map (fun a => (a.getD 0 default).cells)).flatten).length
    = arrays.length
  rw [flatten_length_of_singletons]
  · exact List.length_map arrays _
  · intro x hx
    rcases List.mem_map.mp hx with ⟨a, ha, rfl⟩
    have := hsingle a ha
    rwa [show a.headD default = a.getD 0 default from by cases a <;> rfl] at this

theorem AggBatch.try_new_ok (schema : Schema) (columns : List AggColumn)
    (b : AggBatch) (h : AggBatch.try_new schema columns = Except.ok b) :
    b.schema = schema ∧ b.columns = columns
      ∧ b.num_rows = (columns.headD default).cells.length := by
  unfold AggBatch.try_new at h
  split at h
  · injection h with h2
    subst h2
    exact ⟨rfl, rfl, rfl⟩
  · simp at h

theorem create_batch_from_map_rows {Acc : Type} (mode : AggregateMode)
    (m : Accumulators Acc) (aggr_expr : List (AggregateExprM Acc))
    (ng : Nat) (schema : Schema) (b : AggBatch) (hng : 0 < ng)
    (h : create_batch_from_map mode m aggr_expr ng schema = Except.ok b) :
    b.num_rows = m.length ∧ (m = [] → b = create_batch_empty schema) := by
  unfold create_batch_from_map at h
  split at h
  case h_2 err hl => simp at h
  case h_1 arrays hl =>
    obtain ⟨hlen, hprops⟩ := entryArraysLoop_spec mode aggr_expr ng hng m arrays hl
    split at h
    case isTrue hne =>
      obtain ⟨hbs, hbc, hbn⟩ := AggBatch.try_new_ok schema (concatenate arrays) b h
      have harrne : arrays ≠ [] := fun hh => hne (by simp [hh])
      have hhead0 : 0 < (arrays.headD []).length := by
        cases arrays with
        | nil => exact absurd rfl harrne
        | cons a as =>
          have := hprops a (List.mem_cons_self a as)
          simp only [List.headD_cons]
          by_contra hza
          rw [Nat.not_lt, Nat.le_zero] at hza
          rw [List.length_eq_zero] at hza
          subst hza
          simp [default] at this
      obtain ⟨_, hcells⟩ := concatenate_head_cells arrays hhead0 hprops
      constructor
      · rw [hbn, hcells, hlen]
      · intro hm
        subst hm
        simp at hlen
        exact absurd hlen.symm (by simpa using hne)
    case isFalse hne =>
      injection h with h2
      subst h2
      have : arrays = [] := by
        rw [← List.length_eq_zero]
        simpa using hne
      subst this
      simp at hlen
      exact ⟨by simp [create_batch_empty, hlen.symm], fun _ => rfl⟩

/-- C9: for every grouped hash aggregate execution over any sequence of input
batches, the single output batch has one row per distinct group key observed
across all input rows (`ks` lists the per-row `create_key` results, all of
which succeeded); and when there are no input batches the output is the empty
batch with the operator's output schema. -/
theorem grouped_hash_aggregate_row_count {Acc : Type} (mode : AggregateMode)
    (schema : Schema) (group_expr : List PhysicalExprM)
    (aggr_expr : List (AggregateExprM Acc)) (input : List AggBatch)
    (b : AggBatch) (hg : 0 < group_expr.length)
    (h : grouped_hash_aggregate mode schema group_expr aggr_expr input
      = Except.ok b) :
    (∃ ks : List (List GroupByScalar),
        (input.map (observedRowKeys group_expr)).flatten = ks.map Except.ok
        ∧ b.num_rows = ks.toFinset.card)
    ∧ (input = [] → b = create_batch_empty schema) := by
  unfold grouped_hash_aggregate at h
  split at h
  case h_2 e hae => simp at h
  case h_1 aggr_exprs hae =>
    split at h
    case h_2 e hf => simp at h
    case h_1 accumulators hf =>
      obtain ⟨ks, hks, hkeys⟩ := foldBatches_keys mode group_expr aggr_expr
        aggr_exprs input [] accumulators hf
      obtain ⟨hrows, hempty⟩ := create_batch_from_map_rows mode accumulators
        aggr_expr group_expr.length schema b hg h
      constructor
      · refine ⟨ks, hks, ?_⟩
        rw [hrows, show accumulators.length = (keysOf accumulators).length from
          by simp [keysOf], hkeys]
        simpa using length_foldl_insKey_nil ks
      · intro hinput
        subst hinput
        apply hempty
        simp only [foldBatches, Except.ok.injEq] at hf
        exact hf.symm

/-- One concrete input batch of the test scenario of hash_aggregate.rs:
`a = [2, 3, 4, 4]`, `b = [1.0, 2.0, 3.0, 4.0]` (float cells as bit
patterns). -/
def testBatch : AggBatch :=
  ⟨testInputSchema,
    [⟨DataType.UInt32,
      [CellValue.u32 2, CellValue.u32 3, CellValue.u32 4, CellValue.u32 4]⟩,
     ⟨DataType.Float64,
      [CellValue.f64bits 1, CellValue.f64bits 2,
       CellValue.f64bits 3, CellValue.f64bits 4]⟩],
    4⟩

/-- The Partial-mode output schema of the witness scenario. -/
def witnessOutSchema : Schema :=
  Schema.mk [⟨"a", DataType.UInt32, false⟩,
    ⟨"AVG(b)[count]", DataType.UInt64, true⟩,
    ⟨"AVG(b)[sum]", DataType.Float64, true⟩]

/-- The batch `grouped_hash_aggregate` produces for the witness scenario:
three rows, one per distinct key of `a = [2, 3, 4, 4]`. -/
def witnessOutBatch : AggBatch :=
  ⟨witnessOutSchema,
    [⟨DataType.UInt32, [CellValue.u32 2, CellValue.u32 3, CellValue.u32 4]⟩,
     ⟨DataType.UInt64, [CellValue.u64 0, CellValue.u64 0, CellValue.u64 0]⟩,
     ⟨DataType.Float64,
      [CellValue.f64bits 0, CellValue.f64bits 0, CellValue.f64bits 0]⟩],
    3⟩

/-- Witness for C9 on the concrete `AVG(b) GROUP BY a` scenario with keys
`[2, 3, 4, 4]`: three distinct keys, three output rows. -/
theorem grouped_hash_aggregate_row_count_witness :
    (∃ ks : List (List GroupByScalar),
        ([testBatch].map (observedRowKeys [colAExpr])).flatten = ks.map Except.ok
        ∧ witnessOutBatch.num_rows = ks.toFinset.card)
    ∧ ([testBatch] = ([] : List AggBatch) →
        witnessOutBatch = create_batch_empty witnessOutSchema) :=
  grouped_hash_aggregate_row_count AggregateMode.Partial witnessOutSchema
    [colAExpr] [avgShapedAgg] [testBatch] witnessOutBatch (by decide) rfl

/-! ## C10: ungrouped aggregation over an empty input stream -/

theorem finalize_cols_single {Acc : Type} (mode : AggregateMode)
    (aggs : List (AggregateExprM Acc)) (accs : List Acc)
    (cols : List AggColumn)
    (h : finalize_aggregation mode aggs accs = Except.ok cols) :
    ∀ c ∈ cols, c.cells.length = 1 := by
  induction aggs generalizing accs cols with
  | nil =>
    simp only [finalize_aggregation, Except.ok.injEq] at h
    subst h
    simp
  | cons agg aggs ih =>
    cases accs with
    | nil =>
      simp only [finalize_aggregation, Except.ok.injEq] at h
      subst h
      simp
    | cons acc accs =>
      cases mode with
      | Partial =>
        simp only [finalize_aggregation] at h
        split at h
        case h_2 => simp at h
        case h_1 svals hs =>
          split at h
          case h_2 => simp at h
          case h_1 cols' hrec =>
            injection h with h2
            subst h2
            intro c hc
            rcases List.mem_append.mp hc with hc | hc
            · rcases List.mem_map.mp hc with ⟨s, _, rfl⟩
              rfl
            · exact ih accs cols' hrec c hc
      | Final =>
        simp only [finalize_aggregation] at h
        split at h
        case h_2 => simp at h
        case h_1 v hv =>
          split at h
          case h_2 => simp at h
          case h_1 cols' hrec =>
            injection h with h2
            subst h2
            intro c hc
            rcases List.mem_cons.mp hc with rfl | hc
            · rfl
            · exact ih accs cols' hrec c hc

/-- C10: over an input stream yielding no batches, the ungrouped
`HashAggregateStream` still produces its single output batch from freshly
created accumulators — `state()` columns in Partial mode, `evaluate()`
columns in Final mode, every column a single-element array — and whenever the
batch has a column at all (some aggregate contributes one) its row count is
exactly one, never zero. -/
theorem hash_aggregate_stream_empty_input {Acc : Type} (mode : AggregateMode)
    (schema : Schema) (aggr_expr : List (AggregateExprM Acc)) (b : AggBatch)
    (h : hash_aggregate_stream_batch mode schema aggr_expr [] = Except.ok b) :
    (∃ fresh columns,
        create_accumulators aggr_expr = Except.ok fresh
        ∧ finalize_aggregation mode aggr_expr fresh = Except.ok columns
        ∧ AggBatch.try_new schema columns = Except.ok b
        ∧ ∀ c ∈ columns, c.cells.length = 1)
    ∧ (b.columns ≠ [] → b.num_rows = 1) := by
  unfold hash_aggregate_stream_batch at h
  split at h
  case h_2 e hca => simp at h
  case h_1 accumulators hca =>
    split at h
    case h_2 e hae => simp at h
    case h_1 expressions hae =>
      split at h
      case h_2 e hf => simp at h
      case h_1 accs hf =>
        simp only [foldUngrouped, Except.ok.injEq] at hf
        subst hf
        split at h
        case h_2 e hfin => simp at h
        case h_1 columns hfin =>
          have hsingle := finalize_cols_single mode aggr_expr accumulators
            columns hfin
          refine ⟨⟨accumulators, columns, hca, hfin, h, hsingle⟩, ?_⟩
          intro hbc
          obtain ⟨hbs, hbcols, hbn⟩ := AggBatch.try_new_ok schema columns b h
          rw [hbn]
          cases hco : columns with
          | nil =>
            rw [hbcols, hco] at hbc
            exact absurd rfl hbc
          | cons c cs =>
            simp only [List.headD_cons]
            exact hsingle c (by rw [hco]; exact List.mem_cons_self c cs)

/-- The Final-mode output schema of the C10 witness. -/
def ungroupedOutSchema : Schema := Schema.mk [⟨"AVG(b)", DataType.Float64, true⟩]

/-- The batch the ungrouped stream produces on empty input in the C10
witness: one row, one `evaluate()` column. -/
def ungroupedOutBatch : AggBatch :=
  ⟨ungroupedOutSchema, [⟨DataType.Float64, [CellValue.f64bits 0]⟩], 1⟩

/-- Witness for C10 on the concrete Final-mode `AVG(b)` aggregate with no
input batches. -/
theorem hash_aggregate_stream_empty_input_witness :
    (∃ fresh columns,
        create_accumulators [avgShapedAgg] = Except.ok fresh
        ∧ finalize_aggregation AggregateMode.Final [avgShapedAgg] fresh
            = Except.ok columns
        ∧ AggBatch.try_new ungroupedOutSchema columns = Except.ok ungroupedOutBatch
        ∧ ∀ c ∈ columns, c.cells.length = 1)
    ∧ (ungroupedOutBatch.columns ≠ [] → ungroupedOutBatch.num_rows = 1) :=
  hash_aggregate_stream_empty_input AggregateMode.Final ungroupedOutSchema
    [avgShapedAgg] ungroupedOutBatch rfl

end Spec2Proof
